import Mathlib

/-!
# Verification of the sandboxed code-execution orchestrator

Shallow embedding of `src/docker_runner/DockerCodeRunner.py`: the submission
validator, the generated subject harness (`_generate_main`), the generated
driver harness (`_generate_tests`), the whitelist resolution in `run`, the
result mapper (`_parse_test_results`) and the container/scratch-directory
lifecycle of `run`.

Modelling conventions:
* Python/JSON data values are modelled by the mutual inductive `JVal`
  (`null`/`bool`/`int`/`str`/`arr`/`obj`).  JSON numbers are modelled as
  integers; floats are not modelled.
* Text is modelled as `List Char`.  `json.dumps`, Python `str`/`repr`,
  `json.loads` and Python literal evaluation (`eval` of a `repr`-produced
  literal) are modelled by executable printers and parsers over `List Char`.
  String contents are assumed to be printable ASCII (predicate `strOkV`);
  the `ensure_ascii` escaping of `json.dumps` and the `\xNN` escapes of
  `repr` for non-printable characters are outside the model.
* Machine behaviour that is pure data flow (exit codes, stdout/stderr
  contents, verdict records) is embedded directly; wall-clock timeouts are
  not modelled (every child process is assumed to finish in time).
-/

namespace DockerRunner

/-! ## Basic character and list utilities -/

/-- Decimal digit test on characters (`'0'`–`'9'`). -/
def isDig (c : Char) : Bool := 48 ≤ c.toNat && c.toNat ≤ 57

/-- The character for a single decimal digit `d < 10`. -/
def digCh (d : Nat) : Char := Char.ofNat (48 + d)

/-- Fuel-indexed digit expansion (structural, so that the kernel can
evaluate it; the fuel only needs to exceed the number). -/
def natDigitsAux : Nat → Nat → List Char
  | 0, _ => []
  | fuel + 1, n =>
    if n < 10 then [digCh n]
    else natDigitsAux fuel (n / 10) ++ [digCh (n % 10)]

/-- Decimal digits of a natural number, most significant first
(the output of Python `str` on a nonnegative `int`). -/
def natDigits (n : Nat) : List Char := natDigitsAux (n + 1) n

/-- Python `str` of an `int` value. -/
def intChars (n : Int) : List Char :=
  if n < 0 then '-' :: natDigits n.natAbs else natDigits n.natAbs

/-- Numeric value of a digit list (fold, most significant first). -/
def digitsVal (ds : List Char) : Nat :=
  ds.foldl (fun a c => a * 10 + (c.toNat - 48)) 0

/-- Python `str.split(sep)` with a one-character separator: splits on every
occurrence, keeping empty pieces, and is never the empty list. -/
def pySplit (sep : Char) : List Char → List (List Char)
  | [] => [[]]
  | c :: cs =>
    if c = sep then [] :: pySplit sep cs
    else match pySplit sep cs with
      | [] => [[c]]
      | p :: ps => (c :: p) :: ps

/-- Last element of a piece list (total; `pySplit` is never empty). -/
def lastPiece (ss : List (List Char)) : List Char :=
  ss.foldl (fun _ x => x) []

/-- Python whitespace test used by `str.strip` (the ASCII part). -/
def isPySpace (c : Char) : Bool :=
  c = ' ' || c = '\t' || c = '\n' || c = '\r' || c = '\x0b' || c = '\x0c'

/-- Python `str.strip()` (both ends). -/
def pyStrip (s : List Char) : List Char :=
  ((s.dropWhile isPySpace).reverse.dropWhile isPySpace).reverse

/-- Does `pat` occur as a contiguous sublist of `s`?  (Python `pat in s`.) -/
def containsSub (pat s : List Char) : Bool :=
  if pat.isPrefixOf s then true
  else match s with
    | [] => pat.isEmpty
    | _ :: cs => containsSub pat cs

/-- The part of `s` before the first occurrence of `pat` (Python
`s.split(pat)[0]` for a non-empty separator); `s` itself if absent. -/
def takeBeforeSub (pat s : List Char) : List Char :=
  if pat.isPrefixOf s then []
  else match s with
    | [] => []
    | c :: cs => c :: takeBeforeSub pat cs

/-- The suffix following the rightmost occurrence of `p :: ps` in `s`,
if any occurrence exists. -/
def lastTailAux (p : Char) (ps : List Char) : List Char → Option (List Char)
  | [] => none
  | c :: cs =>
    match lastTailAux p ps cs with
    | some t => some t
    | none =>
      if (p :: ps).isPrefixOf (c :: cs) then some ((c :: cs).drop (ps.length + 1))
      else none

/-- The part of `s` after the last occurrence of `pat` (Python
`s.split(pat)[-1]` for the non-self-overlapping separators used here);
`s` itself if absent. -/
def afterLastSub (pat s : List Char) : List Char :=
  match pat with
  | [] => s
  | p :: ps => (lastTailAux p ps s).getD s

/-! ## JSON / Python data values -/

mutual
/-- A JSON-encodable Python value (floats not modelled; `null` is Python
`None`). -/
inductive JVal where
  | null : JVal
  | bool : Bool → JVal
  | int : Int → JVal
  | str : String → JVal
  | arr : JArr → JVal
  | obj : JObj → JVal

/-- A JSON array (Python list). -/
inductive JArr where
  | nil : JArr
  | cons : JVal → JArr → JArr

/-- A JSON object (Python dict with string keys, in insertion order). -/
inductive JObj where
  | nil : JObj
  | kcons : String → JVal → JObj → JObj
end

/-- Embed a `List JVal` as a `JArr`. -/
def JArr.ofList : List JVal → JArr
  | [] => .nil
  | v :: vs => .cons v (JArr.ofList vs)

/-- The elements of a `JArr` as a `List JVal`. -/
def JArr.toList : JArr → List JVal
  | .nil => []
  | .cons v vs => v :: vs.toList

/-- Embed a key/value list as a `JObj`. -/
def JObj.ofList : List (String × JVal) → JObj
  | [] => .nil
  | (k, v) :: kvs => .kcons k v (JObj.ofList kvs)

/-- Python `dict.get(k)`: the value at the first matching key. -/
def JObj.lookup (k : String) : JObj → Option JVal
  | .nil => none
  | .kcons k' v rest => if k' = k then some v else rest.lookup k

/-- The keys of a `JObj`, in order. -/
def JObj.keys : JObj → List String
  | .nil => []
  | .kcons k _ rest => k :: rest.keys

/-- Number of entries of a `JObj`. -/
def JObj.length : JObj → Nat
  | .nil => 0
  | .kcons _ _ rest => rest.length + 1

/-- Python `d[k] = v` on a dict: replace in place if the key exists
(keeping its position), else append at the end. -/
def JObj.setKey (k : String) (v : JVal) : JObj → JObj
  | .nil => .kcons k v .nil
  | .kcons k' w rest =>
    if k' = k then .kcons k' v rest else .kcons k' w (rest.setKey k v)

mutual
/-- Structural size, used as parser fuel. -/
def sizeV : JVal → Nat
  | .null | .bool _ | .int _ | .str _ => 1
  | .arr a => sizeA a + 1
  | .obj o => sizeO o + 1

def sizeA : JArr → Nat
  | .nil => 0
  | .cons v vs => sizeV v + sizeA vs + 1

def sizeO : JObj → Nat
  | .nil => 0
  | .kcons _ v rest => sizeV v + sizeO rest + 1
end

/-- Printable-ASCII test (0x20–0x7e): the character set our string model
covers (no control characters, no escaping of non-ASCII text). -/
def okChar (c : Char) : Bool := 32 ≤ c.toNat && c.toNat ≤ 126

/-- All characters of a string are printable ASCII. -/
def okStr (s : String) : Bool := s.data.all okChar

mutual
/-- Every string (content and object key) of the value is printable ASCII. -/
def strOkV : JVal → Bool
  | .null | .bool _ | .int _ => true
  | .str s => okStr s
  | .arr a => strOkA a
  | .obj o => strOkO o

def strOkA : JArr → Bool
  | .nil => true
  | .cons v vs => strOkV v && strOkA vs

def strOkO : JObj → Bool
  | .nil => true
  | .kcons k v rest => okStr k && strOkV v && strOkO rest
end

mutual
/-- Canonical value: every object has pairwise-distinct keys (as any value
decoded from a Python dict does). -/
def canonV : JVal → Bool
  | .null | .bool _ | .int _ | .str _ => true
  | .arr a => canonA a
  | .obj o => canonO o

def canonA : JArr → Bool
  | .nil => true
  | .cons v vs => canonV v && canonA vs

def canonO : JObj → Bool
  | .nil => true
  | .kcons k v rest => !(rest.keys.contains k) && canonV v && canonO rest
end

mutual
/-- Python `==` on JSON-decoded values: numeric cross-equality between
`bool` and `int` (`True == 1`), key-set based equality for dicts. -/
def pyEq : JVal → JVal → Bool
  | .null, .null => true
  | .bool a, .bool b => a == b
  | .bool a, .int n => (if a then (1 : Int) else 0) == n
  | .int n, .bool a => n == (if a then (1 : Int) else 0)
  | .int m, .int n => m == n
  | .str s, .str t => s == t
  | .arr a, .arr b => pyEqA a b
  | .obj a, .obj b => a.length == b.length && pyEqO a b
  | _, _ => false

def pyEqA : JArr → JArr → Bool
  | .nil, .nil => true
  | .cons v vs, .cons w ws => pyEq v w && pyEqA vs ws
  | _, _ => false

/-- Each entry of the first dict is present (by key) in the second with a
`pyEq`-equal value. -/
def pyEqO : JObj → JObj → Bool
  | .nil, _ => true
  | .kcons k v rest, b =>
    (match b.lookup k with
     | some w => pyEq v w
     | none => false) && pyEqO rest b
end

/-! ## Printers: `json.dumps` and Python `str`/`repr` -/

/-- `json.dumps` escaping for one string character (printable-ASCII model:
only the quote and the backslash need escaping). -/
def jsonEscCh (c : Char) : List Char :=
  if c = '"' then ['\\', '"']
  else if c = '\\' then ['\\', '\\']
  else [c]

/-- `json.dumps` escaping of a string body. -/
def jsonEsc (s : List Char) : List Char := s.flatMap jsonEscCh

mutual
/-- Model of Python `json.dumps` with its default separators
(`", "` between items, `": "` after keys). -/
def jsonDumpsV : JVal → List Char
  | .null => 'n' :: 'u' :: 'l' :: 'l' :: []
  | .bool true => 't' :: 'r' :: 'u' :: 'e' :: []
  | .bool false => 'f' :: 'a' :: 'l' :: 's' :: 'e' :: []
  | .int n => intChars n
  | .str s => '"' :: (jsonEsc s.data ++ ['"'])
  | .arr a => '[' :: (jsonDumpsA a ++ [']'])
  | .obj o => '{' :: (jsonDumpsO o ++ ['}'])

/-- Array items, joined by `", "` (without the surrounding brackets). -/
def jsonDumpsA : JArr → List Char
  | .nil => []
  | .cons v .nil => jsonDumpsV v
  | .cons v (.cons w ws) => jsonDumpsV v ++ ',' :: ' ' :: jsonDumpsA (.cons w ws)

/-- Object entries `"key": value`, joined by `", "`. -/
def jsonDumpsO : JObj → List Char
  | .nil => []
  | .kcons k v .nil => '"' :: (jsonEsc k.data ++ '"' :: ':' :: ' ' :: jsonDumpsV v)
  | .kcons k v (.kcons k' w rest) =>
    ('"' :: (jsonEsc k.data ++ '"' :: ':' :: ' ' :: jsonDumpsV v)) ++
      ',' :: ' ' :: jsonDumpsO (.kcons k' w rest)
end

/-- Escaping of one character inside a Python string literal using quote
character `q` (printable-ASCII model: the backslash and the active quote). -/
def pyEscCh (q c : Char) : List Char :=
  if c = '\\' then ['\\', '\\']
  else if c = q then ['\\', q]
  else [c]

/-- Python `repr` of a string: single quotes by default; double quotes when
the text contains a single quote but no double quote. -/
def pyReprStr (s : List Char) : List Char :=
  let q : Char := if s.contains '\'' && !(s.contains '"') then '"' else '\''
  q :: (s.flatMap (pyEscCh q) ++ [q])

mutual
/-- Model of Python `repr` on JSON-decoded values. -/
def pyReprV : JVal → List Char
  | .null => 'N' :: 'o' :: 'n' :: 'e' :: []
  | .bool true => 'T' :: 'r' :: 'u' :: 'e' :: []
  | .bool false => 'F' :: 'a' :: 'l' :: 's' :: 'e' :: []
  | .int n => intChars n
  | .str s => pyReprStr s.data
  | .arr a => '[' :: (pyReprA a ++ [']'])
  | .obj o => '{' :: (pyReprO o ++ ['}'])

def pyReprA : JArr → List Char
  | .nil => []
  | .cons v .nil => pyReprV v
  | .cons v (.cons w ws) => pyReprV v ++ ',' :: ' ' :: pyReprA (.cons w ws)

def pyReprO : JObj → List Char
  | .nil => []
  | .kcons k v .nil => pyReprStr k.data ++ ':' :: ' ' :: pyReprV v
  | .kcons k v (.kcons k' w rest) =>
    (pyReprStr k.data ++ ':' :: ' ' :: pyReprV v) ++ ',' :: ' ' :: pyReprO (.kcons k' w rest)
end

/-- Model of Python `str()`: the identity on strings, `repr` otherwise. -/
def pyStrTop : JVal → List Char
  | .str s => s.data
  | v => pyReprV v

/-! ## Parsers: `json.loads` and Python literal evaluation -/

/-- Unescape one `\\c` escape accepted by the JSON string scanner. -/
def jsonUnesc (c : Char) : Option Char :=
  if c = '"' then some '"'
  else if c = '\\' then some '\\'
  else if c = '/' then some '/'
  else if c = 'n' then some '\n'
  else if c = 't' then some '\t'
  else if c = 'r' then some '\r'
  else if c = 'b' then some '\x08'
  else if c = 'f' then some '\x0c'
  else none

/-- Scan a JSON string body up to the closing `"`; returns the decoded
text and the remainder after the quote. -/
def jStrBody : List Char → Option (List Char × List Char)
  | [] => none
  | c :: cs =>
    if c = '"' then some ([], cs)
    else if c = '\\' then
      match cs with
      | [] => none
      | e :: cs' =>
        match jsonUnesc e with
        | none => none
        | some d => (jStrBody cs').map (fun p => (d :: p.1, p.2))
    else (jStrBody cs).map (fun p => (c :: p.1, p.2))

/-- Parse a run of decimal digits (at least one). -/
def parseNatChars (s : List Char) : Option (Nat × List Char) :=
  let ds := s.takeWhile isDig
  if ds.isEmpty then none else some (digitsVal ds, s.dropWhile isDig)

/-- Skip JSON/Python inter-token whitespace. -/
def skipWs (s : List Char) : List Char := s.dropWhile isPySpace

mutual
/-- Model of the `json.loads` value scanner (fuel-indexed; floats and
`\\uXXXX` escapes are outside the model). -/
def jParseV : Nat → List Char → Option (JVal × List Char)
  | 0, _ => none
  | fuel + 1, s =>
    match skipWs s with
    | [] => none
    | c :: cs =>
      if c = '"' then (jStrBody cs).map (fun p => (.str ⟨p.1⟩, p.2))
      else if c = '[' then
        match skipWs cs with
        | ']' :: r => some (.arr .nil, r)
        | s1 => (jParseA fuel s1).map (fun p => (.arr p.1, p.2))
      else if c = '{' then
        match skipWs cs with
        | '}' :: r => some (.obj .nil, r)
        | s1 => (jParseO fuel s1).map (fun p => (.obj p.1, p.2))
      else if c = 't' then
        if ['r', 'u', 'e'].isPrefixOf cs then some (.bool true, cs.drop 3) else none
      else if c = 'f' then
        if ['a', 'l', 's', 'e'].isPrefixOf cs then some (.bool false, cs.drop 4) else none
      else if c = 'n' then
        if ['u', 'l', 'l'].isPrefixOf cs then some (.null, cs.drop 3) else none
      else if c = '-' then
        (parseNatChars cs).map (fun p => (.int (-(p.1 : Int)), p.2))
      else if isDig c then
        (parseNatChars (c :: cs)).map (fun p => (.int (p.1 : Int), p.2))
      else none

/-- One or more array items followed by `]` (first item at the head). -/
def jParseA : Nat → List Char → Option (JArr × List Char)
  | 0, _ => none
  | fuel + 1, s =>
    (jParseV fuel s).bind fun p =>
      match skipWs p.2 with
      | ',' :: r => (jParseA fuel (skipWs r)).map (fun q => (.cons p.1 q.1, q.2))
      | ']' :: r => some (.cons p.1 .nil, r)
      | _ => none

/-- One or more `"key": value` entries followed by `}`. -/
def jParseO : Nat → List Char → Option (JObj × List Char)
  | 0, _ => none
  | fuel + 1, s =>
    match skipWs s with
    | '"' :: cs =>
      (jStrBody cs).bind fun kp =>
        match skipWs kp.2 with
        | ':' :: r =>
          (jParseV fuel (skipWs r)).bind fun p =>
            match skipWs p.2 with
            | ',' :: r2 => (jParseO fuel (skipWs r2)).map (fun q => (.kcons ⟨kp.1⟩ p.1 q.1, q.2))
            | '}' :: r2 => some (.kcons ⟨kp.1⟩ p.1 .nil, r2)
            | _ => none
        | _ => none
    | _ => none
end

/-- Model of `json.loads` on a whole document: the parsed value, provided
the entire input is consumed (up to trailing whitespace). -/
def jsonLoads (s : List Char) : Option JVal :=
  match jParseV (s.length + 1) s with
  | some (v, r) => if (skipWs r).isEmpty then some v else none
  | none => none

/-- Unescape one `\\c` escape inside a Python string literal. -/
def pyUnesc (c : Char) : Option Char :=
  if c = '\'' then some '\''
  else if c = '"' then some '"'
  else if c = '\\' then some '\\'
  else if c = 'n' then some '\n'
  else if c = 't' then some '\t'
  else if c = 'r' then some '\r'
  else none

/-- Scan a Python string-literal body up to the closing quote `q`. -/
def pStrBody (q : Char) : List Char → Option (List Char × List Char)
  | [] => none
  | c :: cs =>
    if c = q then some ([], cs)
    else if c = '\\' then
      match cs with
      | [] => none
      | e :: cs' =>
        match pyUnesc e with
        | none => none
        | some d => (pStrBody q cs').map (fun p => (d :: p.1, p.2))
    else (pStrBody q cs).map (fun p => (c :: p.1, p.2))

mutual
/-- Evaluation of a Python literal expression (the image of `repr` on
JSON-decodable values), as performed when the generated driver source is
executed.  Anything else fails (a `NameError`/`SyntaxError` at runtime). -/
def pParseV : Nat → List Char → Option (JVal × List Char)
  | 0, _ => none
  | fuel + 1, s =>
    match skipWs s with
    | [] => none
    | c :: cs =>
      if c = '\'' then (pStrBody '\'' cs).map (fun p => (.str ⟨p.1⟩, p.2))
      else if c = '"' then (pStrBody '"' cs).map (fun p => (.str ⟨p.1⟩, p.2))
      else if c = '[' then
        match skipWs cs with
        | ']' :: r => some (.arr .nil, r)
        | s1 => (pParseA fuel s1).map (fun p => (.arr p.1, p.2))
      else if c = '{' then
        match skipWs cs with
        | '}' :: r => some (.obj .nil, r)
        | s1 => (pParseO fuel s1).map (fun p => (.obj p.1, p.2))
      else if c = 'T' then
        if ['r', 'u', 'e'].isPrefixOf cs then some (.bool true, cs.drop 3) else none
      else if c = 'F' then
        if ['a', 'l', 's', 'e'].isPrefixOf cs then some (.bool false, cs.drop 4) else none
      else if c = 'N' then
        if ['o', 'n', 'e'].isPrefixOf cs then some (.null, cs.drop 3) else none
      else if c = '-' then
        (parseNatChars cs).map (fun p => (.int (-(p.1 : Int)), p.2))
      else if isDig c then
        (parseNatChars (c :: cs)).map (fun p => (.int (p.1 : Int), p.2))
      else none

def pParseA : Nat → List Char → Option (JArr × List Char)
  | 0, _ => none
  | fuel + 1, s =>
    (pParseV fuel s).bind fun p =>
      match skipWs p.2 with
      | ',' :: r => (pParseA fuel (skipWs r)).map (fun q => (.cons p.1 q.1, q.2))
      | ']' :: r => some (.cons p.1 .nil, r)
      | _ => none

/-- Dict entries `key: value` with string-literal keys (the only key shape
`repr` produces on JSON-decodable values). -/
def pParseO : Nat → List Char → Option (JObj × List Char)
  | 0, _ => none
  | fuel + 1, s =>
    match skipWs s with
    | q :: cs =>
      if q = '\'' || q = '"' then
        (pStrBody q cs).bind fun kp =>
          match skipWs kp.2 with
          | ':' :: r =>
            (pParseV fuel (skipWs r)).bind fun p =>
              match skipWs p.2 with
              | ',' :: r2 => (pParseO fuel (skipWs r2)).map (fun w => (.kcons ⟨kp.1⟩ p.1 w.1, w.2))
              | '}' :: r2 => some (.kcons ⟨kp.1⟩ p.1 .nil, r2)
              | _ => none
          | _ => none
      else none
    | [] => none
end

/-- Evaluation of a complete Python literal (the whole text must be one
expression); `none` models a runtime `NameError`/`SyntaxError`. -/
def pyEvalLit (s : List Char) : Option JVal :=
  match pParseV (s.length + 1) s with
  | some (v, r) => if (skipWs r).isEmpty then some v else none
  | none => none

/-! ## Submission validator (`_validate_function`, lines 260–276)

The Python parse step is not re-modelled: a module body is taken as the
list of its top-level declarations. -/

/-- A top-level declaration of the parsed submission: a function
definition with its positional parameter names, or anything else. -/
inductive PyDecl where
  | funcDef (name : String) (args : List String) : PyDecl
  | other : PyDecl

/-- The failure kinds of `_validate_function` (raised as `Exception`s with
distinguishing messages; named here after the spec's taxonomy). -/
inductive ValidationError where
  | functionMissing (name : String) : ValidationError
  | paramMissing (missing : List String) : ValidationError
deriving DecidableEq

/-- `_validate_function`: walk the top-level declarations; the first
`FunctionDef` whose name matches decides: its positional argument names
must contain every required parameter (`missing` keeps the required
order), else `ParamMissing`; no match at all is `FunctionMissing`. -/
def validate_function (tree : List PyDecl) (functionName : String)
    (requiredParams : List String) : Except ValidationError Unit :=
  match tree with
  | [] => .error (.functionMissing functionName)
  | .funcDef name args :: rest =>
    if name = functionName then
      let missing := requiredParams.filter (fun p => !(args.contains p))
      if missing.isEmpty then .ok () else .error (.paramMissing missing)
    else validate_function rest functionName requiredParams
  | .other :: rest => validate_function rest functionName requiredParams

/-! ## Subject-harness security hook (`_generate_main`, lines 400–483) -/

/-- `extract_module_name` of the generated subject harness:
`name.split('>=')[0].split('==')[0].split('<=')[0].strip()`. -/
def extract_module_name (name : String) : String :=
  ⟨pyStrip (takeBeforeSub "<=".data (takeBeforeSub "==".data
    (takeBeforeSub ">=".data name.data)))⟩

/-- The literal base of the generated `WHITELIST`
(`{'sys', 'json', 'builtins', "org", "ctypes"}`). -/
def baseWhitelist : List String := ["sys", "json", "builtins", "org", "ctypes"]

/-- The generated `BLACKLIST` set. -/
def BLACKLIST : List String :=
  ["os", "subprocess", "socket", "threading", "multiprocessing",
   "signal", "shutil", "sysconfig", "requests", "urllib",
   "inspect", "compileall"]

/-- The generated `WHITELIST`:
base ∪ `ALLOWED_MODULES` (the manifest file mapped through
`extract_module_name`) ∪ `EXTRA_ALLOWED` (the interpolated list). -/
def subjectWhitelist (rawModules extraAllowed : List String) : List String :=
  baseWhitelist ++ rawModules.map extract_module_name ++ extraAllowed

/-- Root of a dotted module path (`args[0].split('.')[0]`). -/
def rootName (m : String) : String := ⟨takeBeforeSub ".".data m.data⟩

/-- A `{type, message, traceback}` JSON diagnostic, in the field order the
generated harnesses print. -/
def mkDiag (t m tb : String) : JVal :=
  .obj (.kcons "type" (.str t) (.kcons "message" (.str m)
    (.kcons "traceback" (.str tb) .nil)))

/-- Outcome of the audit hook on one event: continue, or print a JSON
diagnostic on stderr and `sys.exit(42)`. -/
inductive AuditResult where
  | proceed : AuditResult
  | violation (diagLine : JVal) : AuditResult

/-- The `import` branch of the generated `audit_hook`: the root is blocked
iff it is missing from `WHITELIST` or present in `BLACKLIST`. -/
def audit_hook_import (rawModules extraAllowed : List String)
    (importName : String) : AuditResult :=
  let module := rootName importName
  if !((subjectWhitelist rawModules extraAllowed).contains module)
      || BLACKLIST.contains module then
    .violation (mkDiag "SECURITY_VIOLATION"
      ("Импорт модуля '" ++ module ++ "' запрещён") "")
  else .proceed

/-- The admissibility rule as claim C2 words it: root in
`WHITELIST ∪ {sys, json, builtins}` and not in the hard-blocked set
`{os, sys, subprocess, socket}`.  (Spec-side definition, for comparison
with `audit_hook_import`.) -/
def specImportAdmissible (whitelist : List String) (importName : String) : Bool :=
  let root := rootName importName
  (whitelist.contains root || ["sys", "json", "builtins"].contains root)
    && !(["os", "sys", "subprocess", "socket"].contains root)

/-! ## Whitelist resolution in `run` (lines 42–64) and
`generate_allowed_modules_script` (lines 118–196) -/

/-- The content of `/allowed_modules.json` produced by the generated
introspection script: the environment-derived names (builtins, pip list,
`top_level.txt`, path and site-packages scans — modelled as one opaque
list `envModules`) plus the root of every requested library whose root
imports successfully; empty names are dropped.  (The script stores a
sorted set; membership is what matters here.) -/
def generate_allowed_modules (envModules : List String)
    (importableRoot : String → Bool) (libraries : List String) : List String :=
  (envModules ++
    (libraries.map (fun lib => rootName lib)).filter importableRoot).filter
    (fun x => !x.isEmpty)

/-- The whitelist the subject harness ends up enforcing for one run of
`run`.  Pre-baked path (lines 43–44): `allowed_modules` is the image
manifest, and it is passed to `_generate_main` as `EXTRA_ALLOWED` while
the in-container `/allowed_modules.json` (read as `ALLOWED_MODULES`) is
that same manifest.  Live path (lines 45–62): both are the generated
file. -/
def run_whitelist (preBaked : Bool) (imageManifest : List String)
    (envModules : List String) (importableRoot : String → Bool)
    (libraries : List String) : List String :=
  if preBaked then subjectWhitelist imageManifest imageManifest
  else
    let gen := generate_allowed_modules envModules importableRoot libraries
    subjectWhitelist gen gen

/-! ## Subject harness `__main__` (lines 501–543) -/

/-- Result of calling the user function once: a returned value, a raised
`SecurityViolation`, or any other raised exception. -/
inductive PyFunRes where
  | ret (v : JVal) : PyFunRes
  | raiseSec (msg : String) : PyFunRes
  | raiseErr (msg : String) : PyFunRes

/-- What one child (subject-harness) process produced: its stripped
stdout and stderr texts and its exit code. -/
structure ChildResult where
  stdoutText : List Char
  stderrText : List Char
  exitCode : Int

/-- Placeholder for `traceback.format_exc()` (opaque text; modelled
without newlines so that it stays inside one JSON diagnostic line, as the
real escaped `\\n` sequences do). -/
def tracebackText : String := "Traceback (most recent call last): ..."

/-- A child that prints one `RUNTIME_ERROR` diagnostic and exits 1. -/
def childRuntimeError (msg : String) : ChildResult :=
  ⟨[], jsonDumpsV (mkDiag "RUNTIME_ERROR" msg tracebackText), 1⟩

/-- The `__main__` block of the generated subject harness: load the
manifest (exit 42 on failure), decode each argv entry with `json.loads`,
look up and call the function, reject a `None` result, and print the
JSON-encoded result on stdout (the two `[DEBUG]` lines go to stderr). -/
def subject_main (manifestOk : Bool) (argv : List (List Char))
    (func : Option (List JVal → PyFunRes)) : ChildResult :=
  if !manifestOk then
    ⟨[], jsonDumpsV (mkDiag "SECURITY_VIOLATION"
      "Не удалось загрузить /allowed_modules.json" "err"), 42⟩
  else
    match argv.mapM jsonLoads with
    | none => childRuntimeError "Expecting value"
    | some args =>
      match func with
      | none => childRuntimeError "Функция не найдена"
      | some f =>
        match f args with
        | .raiseSec m => ⟨[], jsonDumpsV (mkDiag "SECURITY_VIOLATION" m ""), 42⟩
        | .raiseErr m => childRuntimeError m
        | .ret .null =>
          childRuntimeError "Функция вернула None. Убедитесь, что используется оператор return."
        | .ret v =>
          ⟨jsonDumpsV v,
           ("[DEBUG] Результат перед JSON: ".data ++ pyReprV v) ++
             '\n' :: ("[DEBUG] JSON результат: ".data ++ jsonDumpsV v),
           0⟩

/-! ## Driver harness: one test case (`_run_test_case`, lines 567–653) -/

/-- The three error attributes a test method accumulates
(`_test_error_type`, `_test_error`, `_test_traceback`); each holds an
arbitrary Python value once assigned. -/
structure CaseState where
  errType : Option JVal
  errMsg : Option JVal
  errTb : Option JVal

/-- Python truthiness of a JSON-decoded value. -/
def jTruthy : JVal → Bool
  | .null => false
  | .bool b => b
  | .int n => n != 0
  | .str s => !s.data.isEmpty
  | .arr .nil => false
  | .arr _ => true
  | .obj .nil => false
  | .obj _ => true

/-- `next((line for line in stderr.splitlines() if
line.strip().startswith('{')), None)`. -/
def first_json_line (stderrText : List Char) : Option (List Char) :=
  (pySplit '\n' stderrText).find? (fun l => (pyStrip l).head? == some '{')

/-- Python `d.get(k, default)`. -/
def getField (o : JObj) (k : String) (dflt : JVal) : JVal :=
  (o.lookup k).getD dflt

/-- The failure-message text of `assertEqual` (`repr(a) != repr(b)`). -/
def assertMsg (a b : JVal) : String :=
  ⟨pyReprV a ++ ' ' :: '!' :: '=' :: ' ' :: pyReprV b⟩

/-- The body of `_run_test_case` after the child terminated in time:
classify by exit code, then (only at exit 0) the stderr diagnostic line,
then the last stdout line against the expected value. -/
def classify_child (ch : ChildResult) (expected : JVal) : CaseState :=
  let stdout := pyStrip ch.stdoutText
  let stderr := pyStrip ch.stderrText
  if ch.exitCode = 42 then
    let md : JVal × Option JVal :=
      match first_json_line stderr with
      | some l =>
        match jsonLoads l with
        | some (.obj o) =>
          (getField o "message" (.str "Нарушение политики безопасности"),
           some (getField o "traceback" (.str "")))
        | _ => (.str "Нарушение политики безопасности", none)
      | none => (.str "Нарушение политики безопасности", none)
    { errType := some (.str "SECURITY_VIOLATION"), errMsg := some md.1, errTb := md.2 }
  else if ch.exitCode = 2 then
    { errType := some (.str "MAIN_NOT_FOUND"),
      errMsg := some (.str "main.py не найден или не запускается"),
      errTb := some (.str ⟨stderr⟩) }
  else if ch.exitCode ≠ 0 then
    { errType := some (.str "NON_ZERO_EXIT"),
      errMsg := some (.str ⟨"Код выхода: ".data ++ intChars ch.exitCode ++
        ". STDERR: ".data ++ stderr⟩),
      errTb := some (.str ⟨"Вывод STDOUT: ".data ++ stdout ++
        '\n' :: ("Вывод STDERR: ".data ++ stderr)⟩) }
  else
    -- exit 0: the stderr-diagnostic block (its `raise` is swallowed by
    -- the enclosing `except Exception: pass`, but the attributes remain)
    let st0 : CaseState :=
      match first_json_line stderr with
      | some l =>
        match jsonLoads l with
        | some (.obj o) =>
          { errType := some (getField o "type" (.str "UNKNOWN_ERROR")),
            errMsg := some (getField o "message" (.str "Неизвестная ошибка")),
            errTb := some (getField o "traceback" (.str "")) }
        | _ => { errType := none, errMsg := none, errTb := none }
      | none => { errType := none, errMsg := none, errTb := none }
    let lastLine := lastPiece (pySplit '\n' stdout)
    match jsonLoads lastLine with
    | none =>
      { errType := some (.str "INVALID_OUTPUT"),
        errMsg := some (.str ⟨"Некорректный JSON вывод: ".data ++ stdout⟩),
        errTb := st0.errTb }
    | some result =>
      if pyEq result expected then st0
      else
        { errType := some (.str "ASSERTION_ERROR"),
          errMsg := some (.str (assertMsg result expected)),
          errTb := some (.str tracebackText) }

/-- Classification of a non-zero child exit as claim C7 words it: 42 is
`SECURITY_VIOLATION`; otherwise the first JSON stderr line's `type` if it
parses; otherwise `NON_ZERO_EXIT`.  (Spec-side definition.) -/
def spec_classify_nonzero (exitCode : Int) (stderrText : List Char) : JVal :=
  if exitCode = 42 then .str "SECURITY_VIOLATION"
  else
    match first_json_line (pyStrip stderrText) with
    | some l =>
      match jsonLoads l with
      | some (.obj o) => getField o "type" (.str "UNKNOWN_ERROR")
      | _ => .str "NON_ZERO_EXIT"
    | none => .str "NON_ZERO_EXIT"

/-- How one generated test method ran: `notRan` models an evaluation
error in the generated call itself (e.g. an interpolated `expected`
literal that is not valid Python), recorded by `unittest` as an error
with no `_test_*` attributes set. -/
inductive CaseResult where
  | notRan : CaseResult
  | ran (st : CaseState) : CaseResult

/-- Evaluate the interpolated argument tokens of one generated call:
each is `repr(json.dumps(p))`, pasted into the driver source and
re-evaluated when the call runs. -/
def evalArgTokens (params : List JVal) : Option (List (List Char)) :=
  params.mapM (fun p =>
    match pyEvalLit (pyReprStr (jsonDumpsV p)) with
    | some (.str s) => some s.data
    | _ => none)

/-- One generated test method end to end: evaluate the interpolated
`expected` literal (`str(test["results"][0])` at generation time) and the
argument tokens, spawn the subject child, classify.  Timeouts are not
modelled: the child always finishes in time. -/
def run_generated_case (params : List JVal) (expectedRaw : JVal)
    (manifestOk : Bool) (func : Option (List JVal → PyFunRes)) : CaseResult :=
  match pyEvalLit (pyStrTop expectedRaw), evalArgTokens params with
  | some expected, some argv =>
    .ran (classify_child (subject_main manifestOk argv func) expected)
  | _, _ => .notRan

/-- Did the method finish without `self.fail`?  (`self.fail` runs iff the
final `_test_error` truthiness check passes.) -/
def case_passes : CaseResult → Bool
  | .notRan => false
  | .ran st =>
    match st.errMsg with
    | none => true
    | some m => !jTruthy m

/-! ## Driver harness: suite assembly and output
(`_generate_tests` lines 546–557 and 666–690) -/

/-- `test.get("id", f"{idx + 1}")`. -/
def test_id (idx : Nat) (givenId : Option String) : String :=
  givenId.getD ⟨natDigits (idx + 1)⟩

/-- `test_case_{test_id}`. -/
def method_name (tid : String) : String := "test_case_" ++ tid

/-- One loaded test method: its `test_id` and how running it ended. -/
structure SuiteCase where
  tid : String
  result : CaseResult

/-- Python string `<`: lexicographic comparison by code point. -/
def pyStrLtChars : List Char → List Char → Bool
  | [], [] => false
  | [], _ :: _ => true
  | _ :: _, [] => false
  | a :: as, b :: bs =>
    if a.toNat = b.toNat then pyStrLtChars as bs else a.toNat < b.toNat

/-- Stable insertion of one case into a method-name-sorted list (equal
names keep their relative order). -/
def insertByName (c : SuiteCase) : List SuiteCase → List SuiteCase
  | [] => [c]
  | d :: ds =>
    if pyStrLtChars (method_name c.tid).data (method_name d.tid).data
    then c :: d :: ds
    else d :: insertByName c ds

/-- `unittest.TestLoader` ordering: test methods run sorted by method
name (Python string comparison). -/
def sortByMethodName (cs : List SuiteCase) : List SuiteCase :=
  cs.foldl (fun acc c => insertByName c acc) []

/-- Is the test recorded in `result.errors`?  Only a method whose
generated call itself fails to evaluate (`notRan`) raises something
other than `AssertionError`: every in-method problem is caught inside
`_run_test_case` and funnelled into `self.fail`. -/
def is_unittest_error (c : SuiteCase) : Bool :=
  match c.result with
  | .notRan => true
  | .ran _ => false

/-- The runner's result collection: walk the (sorted) methods in run
order, appending each to `successes`, to `failures` (the method body ran
and ended in `self.fail`, an `AssertionError`) or to `errors` (the
generated call raised before `_run_test_case` was entered). -/
def run_suite_aux : List SuiteCase → List SuiteCase → List SuiteCase →
    List SuiteCase → List SuiteCase × List SuiteCase × List SuiteCase
  | [], succ, fails, errs => (succ, fails, errs)
  | c :: cs, succ, fails, errs =>
    if case_passes c.result then run_suite_aux cs (succ ++ [c]) fails errs
    else if is_unittest_error c then
      run_suite_aux cs succ fails (errs ++ [c])
    else run_suite_aux cs succ (fails ++ [c]) errs

/-- `test_method_name.split('_')[-1]`: the id written into the verdict. -/
def verdict_id_of_method (m : String) : String :=
  ⟨lastPiece (pySplit '_' m.data)⟩

/-- The verdict record appended for a successful test. -/
def success_verdict (c : SuiteCase) : JVal :=
  .obj (.kcons "id" (.str (verdict_id_of_method (method_name c.tid)))
    (.kcons "name" (.str (method_name c.tid))
      (.kcons "status" (.str "success") .nil)))

/-- The verdict record appended for a failed test:
`getattr(test, '_test_error', 'Unknown error')` — the attribute exists
(possibly as `None`) iff the method body ran. -/
def fail_verdict (c : SuiteCase) : JVal :=
  let err : JVal :=
    match c.result with
    | .notRan => .str "Unknown error"
    | .ran st => st.errMsg.getD .null
  let tb : JVal :=
    match c.result with
    | .notRan => .str tracebackText
    | .ran st => st.errTb.getD .null
  .obj (.kcons "id" (.str (verdict_id_of_method (method_name c.tid)))
    (.kcons "name" (.str (method_name c.tid))
      (.kcons "status" (.str "fail")
        (.kcons "error" err (.kcons "traceback" tb .nil)))))

/-- The driver's final `output` list: all successes (in run order), then
the fail verdicts of `result.failures + result.errors` — all `unittest`
failures in run order, then all `unittest` errors in run order. -/
def driver_output (cases : List SuiteCase) : List JVal :=
  let sfe := run_suite_aux (sortByMethodName cases) [] [] []
  sfe.1.map success_verdict ++ sfe.2.1.map fail_verdict ++
    sfe.2.2.map fail_verdict

/-- The driver's whole stdout: `print(json.dumps(output))`. -/
def driver_stdout (cases : List SuiteCase) : List Char :=
  jsonDumpsV (.arr (JArr.ofList (driver_output cases)))

/-- The driver process's exit code.  The `__main__` block runs the suite
through `unittest.TextTestRunner(...).run(...)` — which only returns a
result object — prints the JSON array, and falls off the end of the
script, so the interpreter exits 0 whatever the verdicts were. -/
def driver_exit_code : Int := 0

/-! ## Result mapping (`_parse_test_results`, lines 305–381) -/

/-- The envelope `run` returns (the fields relevant to the claims). -/
structure RunResult where
  status : String
  errorType : Option String
  errorMessage : Option (List Char)
  installOutput : List Char
  testOutput : Option (List Char)
  testStatuses : List JVal

/-- The per-test rewrite (lines 341–347): a `fail` verdict whose `error`
is not a dict gets wrapped as `{type: TEST_FAILURE, message: …}`.
`none` models the `AttributeError` a non-dict list element raises. -/
def rewrite_test (t : JVal) : Option JVal :=
  match t with
  | .obj o =>
    if pyEq (getField o "status" .null) (.str "fail") then
      match o.lookup "error" with
      | some (.obj _) => some t
      | some e => some (.obj (o.setKey "error"
          (.obj (.kcons "type" (.str "TEST_FAILURE")
            (.kcons "message" e .nil)))))
      | none => some (.obj (o.setKey "error"
          (.obj (.kcons "type" (.str "TEST_FAILURE")
            (.kcons "message" (.str "Тест не пройден") .nil)))))
    else some t
  | _ => none

/-- `_parse_test_results(stdout, stderr, exit_code, install_output)`. -/
def parse_test_results (stdoutT stderrT : List Char) (exitCode : Int)
    (installOutput : List Char) : Option RunResult :=
  if stdoutT.isEmpty then
    some { status := "fail",
           errorType := some (if stderrT.isEmpty then "EMPTY_OUTPUT" else "RUNTIME_ERROR"),
           errorMessage := some (if stderrT.isEmpty then
             "Тесты не вернули результат (пустой вывод)".data else stderrT),
           installOutput := installOutput,
           testOutput := none, testStatuses := [] }
  else
    match jsonLoads stdoutT with
    | some (.arr xs) =>
      match xs.toList.mapM rewrite_test with
      | none => none
      | some ts =>
        some { status := if exitCode = 0 then "success" else "fail",
               errorType := none, errorMessage := none,
               installOutput := installOutput,
               testOutput := some stdoutT, testStatuses := ts }
    | some _ =>
      some { status := "fail",
             errorType := some "INVALID_TEST_STRUCTURE",
             errorMessage := some "Ожидался список тестов".data,
             installOutput := installOutput,
             testOutput := none, testStatuses := [] }
    | none =>
      let tm : String × List Char :=
        if containsSub "SECURITY_ERROR".data stderrT then
          ("SECURITY_VIOLATION", pyStrip (afterLastSub "SECURITY_ERROR:".data stderrT))
        else if containsSub "IMPORT_ERROR".data stderrT then
          ("IMPORT_ERROR", pyStrip (afterLastSub "IMPORT_ERROR:".data stderrT))
        else if containsSub "RUNTIME_ERROR".data stderrT then
          ("RUNTIME_ERROR", pyStrip (afterLastSub "RUNTIME_ERROR:".data stderrT))
        else ("PARSE_ERROR", "Expecting value".data)
      some { status := "fail",
             errorType := some tm.1, errorMessage := some tm.2,
             installOutput := installOutput,
             testOutput := none, testStatuses := [] }

/-- Status of one verdict record, as the envelope carries it. -/
def verdictStatus (v : JVal) : Option JVal :=
  match v with
  | .obj o => o.lookup "status"
  | _ => none

/-- Id of one verdict record. -/
def verdictId (v : JVal) : Option JVal :=
  match v with
  | .obj o => o.lookup "id"
  | _ => none

/-! ## Container / scratch-directory lifecycle of `run` (lines 27–91) -/

/-- Which fallible steps of one `run` call fail (environment
nondeterminism).  Container kill/remove themselves are modelled as
succeeding. -/
structure RunEnv where
  validateFails : Bool
  startFails : Bool
  installFails : Bool
  imageManifestOk : Bool
  generatorFails : Bool
  execFails : Bool
  parseFails : Bool

/-- What remains on the host after `run` returns or raises. -/
structure LifeResult where
  tempDirRemains : Bool
  containerRemains : Bool
  raised : Bool
  provisioned : Bool

/-- The `try/finally` skeleton of `run`: validation precedes the scratch
directory; the scratch directory precedes the container; the inner
`finally` runs `_cleanup_container` only when `cleanup` is true (and hits
an unbound `container` if `_start_container` raised); the outer `finally`
always removes the scratch directory. -/
def run_lifecycle (cleanup : Bool) (env : RunEnv) : LifeResult :=
  if env.validateFails then
    { tempDirRemains := false, containerRemains := false,
      raised := true, provisioned := false }
  else if env.startFails then
    { tempDirRemains := false, containerRemains := false,
      raised := true, provisioned := false }
  else
    let bodyRaises := env.installFails
      || (!env.imageManifestOk && env.generatorFails)
      || env.execFails || env.parseFails
    { tempDirRemains := false, containerRemains := !cleanup,
      raised := bodyRaises, provisioned := true }

/-- An environment in which every step succeeds. -/
def envAllOk : RunEnv :=
  { validateFails := false, startFails := false, installFails := false,
    imageManifestOk := true, generatorFails := false,
    execFails := false, parseFails := false }

/-! ## Spec-side definitions for the interpolation claims -/

/-- What `_generate_tests` actually interpolates for `expected=`:
`str(test["results"][0])`. -/
def interp_expected (v : JVal) : List Char := pyStrTop v

/-- What claim C3 says is interpolated: the JSON encoding. -/
def spec_interp_expected (v : JVal) : List Char := jsonDumpsV v

/-- The parameter list of the first top-level function definition with
the given name (the one `_validate_function`'s loop reaches first). -/
def first_matching_def (tree : List PyDecl) (functionName : String) :
    Option (List String) :=
  match tree with
  | [] => none
  | .funcDef name args :: rest =>
    if name = functionName then some args
    else first_matching_def rest functionName
  | .other :: rest => first_matching_def rest functionName

/-- Claim C8's admission rule: exactly one top-level function definition
named `functionName`, and its parameters a superset of
`requiredParams`.  (Spec-side definition.) -/
def spec_validate_ok (tree : List PyDecl) (functionName : String)
    (requiredParams : List String) : Bool :=
  match tree.filter (fun d => match d with
    | .funcDef name _ => name = functionName
    | .other => false) with
  | [.funcDef _ args] => requiredParams.all (fun p => args.contains p)
  | _ => false

/-! ## Lemmas: digits and decimal printing -/

/-- No character satisfies some follow-up predicate at the head. -/
def noDigHead (rest : List Char) : Prop :=
  ∀ c, rest.head? = some c → isDig c = false

theorem digCh_toNat {d : Nat} (h : d < 10) : (digCh d).toNat = 48 + d := by
  interval_cases d <;> rfl

theorem isDig_digCh {d : Nat} (h : d < 10) : isDig (digCh d) = true := by
  simp [isDig, digCh_toNat h]
  omega

theorem natDigitsAux_fuel_irrel : ∀ (f1 f2 n : Nat), n < f1 → n < f2 →
    natDigitsAux f1 n = natDigitsAux f2 n := by
  intro f1
  induction f1 with
  | zero => intro f2 n h1; omega
  | succ f1 ih =>
    intro f2 n h1 h2
    cases f2 with
    | zero => omega
    | succ f2 =>
      rw [natDigitsAux, natDigitsAux]
      split
      · rfl
      · next h =>
        rw [ih f2 (n / 10) (by omega) (by omega)]

theorem natDigits_ne_nil (n : Nat) : natDigits n ≠ [] := by
  unfold natDigits
  rw [natDigitsAux]
  split
  · simp
  · simp

theorem natDigits_all_dig (n : Nat) : ∀ c ∈ natDigits n, isDig c = true := by
  suffices h : ∀ (fuel n : Nat), n < fuel →
      ∀ c ∈ natDigitsAux fuel n, isDig c = true from
    h (n + 1) n (by omega)
  intro fuel
  induction fuel with
  | zero => intro n h; omega
  | succ fuel ih =>
    intro n hn c hc
    rw [natDigitsAux] at hc
    split at hc
    · next h =>
      simp only [List.mem_singleton] at hc
      subst hc
      exact isDig_digCh h
    · next h =>
      rcases List.mem_append.mp hc with h1 | h1
      · exact ih (n / 10) (by omega) c h1
      · simp only [List.mem_singleton] at h1
        subst h1
        exact isDig_digCh (Nat.mod_lt _ (by omega))

theorem digitsVal_append_singleton (xs : List Char) (c : Char) :
    digitsVal (xs ++ [c]) = digitsVal xs * 10 + (c.toNat - 48) := by
  simp [digitsVal, List.foldl_append]

theorem digitsVal_natDigits (n : Nat) : digitsVal (natDigits n) = n := by
  suffices h : ∀ (fuel n : Nat), n < fuel →
      digitsVal (natDigitsAux fuel n) = n from h (n + 1) n (by omega)
  intro fuel
  induction fuel with
  | zero => intro n h; omega
  | succ fuel ih =>
    intro n hn
    rw [natDigitsAux]
    split
    · next h => simp [digitsVal, digCh_toNat h]
    · next h =>
      rw [digitsVal_append_singleton, ih (n / 10) (by omega),
        digCh_toNat (Nat.mod_lt _ (by omega))]
      omega

theorem isDig_char_facts {c : Char} (h : isDig c = true) :
    isPySpace c = false ∧ c ≠ '"' ∧ c ≠ '\'' ∧ c ≠ '[' ∧ c ≠ '{' ∧
      c ≠ 't' ∧ c ≠ 'f' ∧ c ≠ 'n' ∧ c ≠ 'T' ∧ c ≠ 'F' ∧ c ≠ 'N' ∧
      c ≠ '-' ∧ c ≠ '_' ∧ c ≠ '\n' := by
  simp only [isDig, Bool.and_eq_true, decide_eq_true_eq] at h
  refine ⟨?_, ?_, ?_, ?_, ?_, ?_, ?_, ?_, ?_, ?_, ?_, ?_, ?_, ?_⟩ <;>
    first
    | (simp only [isPySpace, Bool.or_eq_false_iff, decide_eq_false_iff_not,
        and_assoc]
       refine ⟨?_, ?_, ?_, ?_, ?_, ?_⟩ <;> (rintro rfl; revert h; decide)
      )
    | (rintro rfl; revert h; decide)

/-! ## Lemmas: takeWhile / dropWhile / strip / split -/

theorem takeWhile_append_all {p : Char → Bool} {xs rest : List Char}
    (hx : ∀ c ∈ xs, p c = true)
    (hr : ∀ c, rest.head? = some c → p c = false) :
    (xs ++ rest).takeWhile p = xs := by
  induction xs with
  | nil =>
    simp only [List.nil_append]
    cases rest with
    | nil => simp
    | cons c cs => simp [List.takeWhile_cons, hr c rfl]
  | cons x xs ih =>
    simp only [List.cons_append, List.takeWhile_cons, hx x (by simp)]
    simp [ih (fun c hc => hx c (by simp [hc]))]

theorem dropWhile_append_all {p : Char → Bool} {xs rest : List Char}
    (hx : ∀ c ∈ xs, p c = true)
    (hr : ∀ c, rest.head? = some c → p c = false) :
    (xs ++ rest).dropWhile p = rest := by
  induction xs with
  | nil =>
    simp only [List.nil_append]
    cases rest with
    | nil => simp
    | cons c cs => simp [List.dropWhile_cons, hr c rfl]
  | cons x xs ih =>
    simp only [List.cons_append, List.dropWhile_cons, hx x (by simp)]
    exact ih (fun c hc => hx c (by simp [hc]))

theorem skipWs_cons {c : Char} {t : List Char} (h : isPySpace c = false) :
    skipWs (c :: t) = c :: t := by
  simp [skipWs, List.dropWhile_cons, h]

theorem dropWhile_append_singleton {p : Char → Bool} {c : Char}
    (hc : p c = false) : ∀ xs : List Char,
    (xs ++ [c]).dropWhile p = xs.dropWhile p ++ [c] := by
  intro xs
  induction xs with
  | nil => simp [List.dropWhile_cons, hc]
  | cons x t ih =>
    by_cases hx : p x
    · simp [List.dropWhile_cons, hx, ih]
    · simp [List.dropWhile_cons, hx]

theorem pyStrip_head {l : List Char} {c : Char} (h : l.head? = some c)
    (hc : isPySpace c = false) : (pyStrip l).head? = some c := by
  cases l with
  | nil => simp at h
  | cons a t =>
    simp only [List.head?_cons, Option.some.injEq] at h
    subst h
    unfold pyStrip
    rw [List.dropWhile_cons]
    simp only [hc, Bool.false_eq_true, if_false, List.reverse_cons]
    rw [dropWhile_append_singleton hc]
    simp

theorem pyStrip_eq_self {l : List Char}
    (h1 : ∀ c, l.head? = some c → isPySpace c = false)
    (h2 : ∀ c, l.getLast? = some c → isPySpace c = false) :
    pyStrip l = l := by
  unfold pyStrip
  have hd : l.dropWhile isPySpace = l := by
    cases l with
    | nil => rfl
    | cons a t => rw [List.dropWhile_cons]; simp [h1 a rfl]
  rw [hd]
  have hr : l.reverse.dropWhile isPySpace = l.reverse := by
    cases hre : l.reverse with
    | nil => rfl
    | cons a t =>
      rw [List.dropWhile_cons]
      have : l.getLast? = some a := by
        rw [← List.head?_reverse, hre, List.head?_cons]
      simp [h2 a this]
  rw [hr, List.reverse_reverse]

theorem pySplit_ne_nil (sep : Char) (l : List Char) : pySplit sep l ≠ [] := by
  cases l with
  | nil => simp [pySplit]
  | cons c cs =>
    rw [pySplit]
    split
    · simp
    · split <;> simp

theorem pySplit_no_sep {sep : Char} {l : List Char} (h : sep ∉ l) :
    pySplit sep l = [l] := by
  induction l with
  | nil => rfl
  | cons c cs ih =>
    rw [pySplit]
    have hc : ¬ c = sep := by rintro rfl; exact h (by simp)
    rw [if_neg hc]
    rw [ih (fun hm => h (by simp [hm]))]

theorem pySplit_append_sep {sep : Char} {a : List Char} (b : List Char)
    (h : sep ∉ a) : pySplit sep (a ++ sep :: b) = a :: pySplit sep b := by
  induction a with
  | nil => simp [pySplit]
  | cons c cs ih =>
    have hc : ¬ c = sep := by rintro rfl; exact h (by simp)
    rw [List.cons_append, pySplit, if_neg hc,
      ih (fun hm => h (by simp [hm]))]

theorem lastPiece_cons_of_ne_nil {a : List Char} {l : List (List Char)}
    (h : l ≠ []) : lastPiece (a :: l) = lastPiece l := by
  cases l with
  | nil => exact absurd rfl h
  | cons b t => simp [lastPiece]

theorem lastPiece_single (a : List Char) : lastPiece [a] = a := rfl

/-! ## Lemmas: number and string-body parsing round-trips -/

theorem parseNatChars_rt (n : Nat) {rest : List Char} (hr : noDigHead rest) :
    parseNatChars (natDigits n ++ rest) = some (n, rest) := by
  unfold parseNatChars
  rw [takeWhile_append_all (natDigits_all_dig n) hr,
    dropWhile_append_all (natDigits_all_dig n) hr]
  simp [List.isEmpty_iff, natDigits_ne_nil, digitsVal_natDigits]

theorem jStrBody_rt (s : List Char) (rest : List Char) :
    jStrBody (jsonEsc s ++ '"' :: rest) = some (s, rest) := by
  induction s with
  | nil =>
    show jStrBody ('"' :: rest) = some ([], rest)
    rw [jStrBody.eq_def]
    simp
  | cons c cs ih =>
    have hexp : jsonEsc (c :: cs) = jsonEscCh c ++ jsonEsc cs := by
      simp [jsonEsc]
    rw [hexp]
    by_cases h1 : c = '"'
    · subst h1
      simp only [jsonEscCh, if_pos rfl, List.cons_append, List.append_assoc,
        List.nil_append]
      rw [jStrBody.eq_def]
      simp [jsonUnesc, ih]
    · by_cases h2 : c = '\\'
      · subst h2
        simp only [jsonEscCh, reduceIte, List.cons_append, List.append_assoc,
          List.nil_append]
        rw [jStrBody.eq_def]
        simp [jsonUnesc, ih]
      · simp only [jsonEscCh, if_neg h1, if_neg h2, List.cons_append,
          List.nil_append]
        rw [jStrBody.eq_def]
        simp [h1, h2, ih]

theorem pStrBody_rt {q : Char} (hq : pyUnesc q = some q) (hq2 : q ≠ '\\')
    (s : List Char) (rest : List Char) :
    pStrBody q (s.flatMap (pyEscCh q) ++ q :: rest) = some (s, rest) := by
  induction s with
  | nil =>
    show pStrBody q (q :: rest) = some ([], rest)
    rw [pStrBody.eq_def]
    simp
  | cons c cs ih =>
    have hexp : (c :: cs).flatMap (pyEscCh q) = pyEscCh q c ++ cs.flatMap (pyEscCh q) := by
      simp
    rw [hexp]
    by_cases h2 : c = '\\'
    · subst h2
      simp only [pyEscCh, reduceIte, List.cons_append, List.append_assoc,
        List.nil_append]
      rw [pStrBody.eq_def]
      simp [Ne.symm hq2, pyUnesc, ih]
    · by_cases h1 : c = q
      · subst h1
        simp only [pyEscCh, if_neg h2, if_pos rfl, List.cons_append,
          List.append_assoc, List.nil_append]
        rw [pStrBody.eq_def]
        simp [Ne.symm hq2, hq, ih]
      · simp only [pyEscCh, if_neg h2, if_neg h1, List.cons_append,
          List.nil_append]
        rw [pStrBody.eq_def]
        simp [h1, h2, ih]

theorem skipWs_append_of_head {l rest : List Char} (hne : l ≠ [])
    (h : ∀ c, l.head? = some c → isPySpace c = false) :
    skipWs (l ++ rest) = l ++ rest := by
  cases l with
  | nil => exact absurd rfl hne
  | cons c t => simp [skipWs, List.dropWhile_cons, h c rfl]

theorem natDigits_head_dig (n : Nat) :
    ∃ c t, natDigits n = c :: t ∧ isDig c = true := by
  obtain ⟨c, t, h⟩ := List.exists_cons_of_ne_nil (natDigits_ne_nil n)
  exact ⟨c, t, h, natDigits_all_dig n c (by rw [h]; simp)⟩

theorem intChars_head (n : Int) :
    ∃ c t, intChars n = c :: t ∧ isPySpace c = false := by
  unfold intChars
  split
  · exact ⟨'-', _, rfl, by decide⟩
  · obtain ⟨c, t, h, hd⟩ := natDigits_head_dig n.natAbs
    exact ⟨c, t, h, (isDig_char_facts hd).1⟩

theorem dumpsV_head (v : JVal) :
    ∃ c t, jsonDumpsV v = c :: t ∧ isPySpace c = false := by
  cases v with
  | null => exact ⟨'n', _, rfl, by decide⟩
  | bool b =>
    cases b with
    | false => exact ⟨'f', _, rfl, by decide⟩
    | true => exact ⟨'t', _, rfl, by decide⟩
  | int n => exact intChars_head n
  | str s => exact ⟨'"', _, rfl, by decide⟩
  | arr a => exact ⟨'[', _, rfl, by decide⟩
  | obj o => exact ⟨'{', _, rfl, by decide⟩

theorem reprV_head (v : JVal) :
    ∃ c t, pyReprV v = c :: t ∧ isPySpace c = false := by
  cases v with
  | null => exact ⟨'N', _, rfl, by decide⟩
  | bool b =>
    cases b with
    | false => exact ⟨'F', _, rfl, by decide⟩
    | true => exact ⟨'T', _, rfl, by decide⟩
  | int n => exact intChars_head n
  | str s =>
    by_cases hA : (s.data.contains '\'' && !s.data.contains '"') = true
    · refine ⟨'"', s.data.flatMap (pyEscCh '"') ++ ['"'], ?_, by decide⟩
      simp only [pyReprV, pyReprStr, hA, reduceIte]
    · refine ⟨'\'', s.data.flatMap (pyEscCh '\'') ++ ['\''], ?_, by decide⟩
      simp only [pyReprV, pyReprStr, if_neg hA]
  | arr a => exact ⟨'[', _, rfl, by decide⟩
  | obj o => exact ⟨'{', _, rfl, by decide⟩

theorem natDigits_last (n : Nat) :
    ∃ c, (natDigits n).getLast? = some c ∧ isDig c = true := by
  unfold natDigits
  rw [natDigitsAux]
  split
  · next h => exact ⟨digCh n, by simp, isDig_digCh h⟩
  · next h =>
    exact ⟨digCh (n % 10), List.getLast?_concat _,
      isDig_digCh (Nat.mod_lt _ (by omega))⟩

theorem intChars_last (n : Int) :
    ∃ c, (intChars n).getLast? = some c ∧ isPySpace c = false := by
  unfold intChars
  obtain ⟨c, hc, hd⟩ := natDigits_last n.natAbs
  split
  · refine ⟨c, ?_, (isDig_char_facts hd).1⟩
    rw [show ('-' :: natDigits n.natAbs) = ['-'] ++ natDigits n.natAbs from rfl,
      List.getLast?_append_of_ne_nil _ (natDigits_ne_nil _)]
    exact hc
  · exact ⟨c, hc, (isDig_char_facts hd).1⟩

theorem dumpsV_last (v : JVal) :
    ∃ c, (jsonDumpsV v).getLast? = some c ∧ isPySpace c = false := by
  cases v with
  | null => exact ⟨'l', rfl, by decide⟩
  | bool b =>
    cases b with
    | false => exact ⟨'e', rfl, by decide⟩
    | true => exact ⟨'e', rfl, by decide⟩
  | int n => exact intChars_last n
  | str s =>
    refine ⟨'"', ?_, by decide⟩
    show (('"' :: jsonEsc s.data) ++ ['"']).getLast? = some '"'
    exact List.getLast?_concat _
  | arr a =>
    refine ⟨']', ?_, by decide⟩
    show (('[' :: jsonDumpsA a) ++ [']']).getLast? = some ']'
    exact List.getLast?_concat _
  | obj o =>
    refine ⟨'}', ?_, by decide⟩
    show (('{' :: jsonDumpsO o) ++ ['}']).getLast? = some '}'
    exact List.getLast?_concat _

mutual
theorem sizeV_le_dumps : ∀ v : JVal, sizeV v ≤ (jsonDumpsV v).length
  | .null => by simp [sizeV, jsonDumpsV]
  | .bool true => by simp [sizeV, jsonDumpsV]
  | .bool false => by simp [sizeV, jsonDumpsV]
  | .int n => by
    have h := natDigits_ne_nil n.natAbs
    have h2 := List.length_pos.mpr h
    simp only [sizeV, jsonDumpsV, intChars]
    split <;> simp <;> omega
  | .str s => by simp [sizeV, jsonDumpsV]
  | .arr a => by
    have h := sizeA_le_dumps a
    simp only [sizeV, jsonDumpsV, List.length_cons, List.length_append,
      List.length_singleton]
    omega
  | .obj o => by
    have h := sizeO_le_dumps o
    simp only [sizeV, jsonDumpsV, List.length_cons, List.length_append,
      List.length_singleton]
    omega

theorem sizeA_le_dumps : ∀ a : JArr, sizeA a ≤ (jsonDumpsA a).length + 1
  | .nil => by simp [sizeA, jsonDumpsA]
  | .cons v .nil => by
    have h := sizeV_le_dumps v
    simp only [sizeA, sizeA.eq_1, jsonDumpsA]
    omega
  | .cons v (.cons w ws) => by
    have h1 := sizeV_le_dumps v
    have h2 := sizeA_le_dumps (.cons w ws)
    have h3 : sizeA (.cons w ws) = sizeV w + sizeA ws + 1 := rfl
    simp only [sizeA, jsonDumpsA, List.length_append, List.length_cons]
    omega

theorem sizeO_le_dumps : ∀ o : JObj, sizeO o ≤ (jsonDumpsO o).length + 1
  | .nil => by simp [sizeO, jsonDumpsO]
  | .kcons k v .nil => by
    have h := sizeV_le_dumps v
    simp only [sizeO, sizeO.eq_1, jsonDumpsO, List.length_cons,
      List.length_append]
    omega
  | .kcons k v (.kcons k' w rest) => by
    have h1 := sizeV_le_dumps v
    have h2 := sizeO_le_dumps (.kcons k' w rest)
    have h3 : sizeO (.kcons k' w rest) = sizeV w + sizeO rest + 1 := rfl
    simp only [sizeO, jsonDumpsO, List.length_append, List.length_cons]
    omega
end

mutual
theorem sizeV_le_repr : ∀ v : JVal, sizeV v ≤ (pyReprV v).length
  | .null => by simp [sizeV, pyReprV]
  | .bool true => by simp [sizeV, pyReprV]
  | .bool false => by simp [sizeV, pyReprV]
  | .int n => by
    have h := natDigits_ne_nil n.natAbs
    have h2 := List.length_pos.mpr h
    simp only [sizeV, pyReprV, intChars]
    split <;> simp <;> omega
  | .str s => by simp [sizeV, pyReprV, pyReprStr]
  | .arr a => by
    have h := sizeA_le_repr a
    simp only [sizeV, pyReprV, List.length_cons, List.length_append,
      List.length_singleton]
    omega
  | .obj o => by
    have h := sizeO_le_repr o
    simp only [sizeV, pyReprV, List.length_cons, List.length_append,
      List.length_singleton]
    omega

theorem sizeA_le_repr : ∀ a : JArr, sizeA a ≤ (pyReprA a).length + 1
  | .nil => by simp [sizeA, pyReprA]
  | .cons v .nil => by
    have h := sizeV_le_repr v
    simp only [sizeA, sizeA.eq_1, pyReprA]
    omega
  | .cons v (.cons w ws) => by
    have h1 := sizeV_le_repr v
    have h2 := sizeA_le_repr (.cons w ws)
    have h3 : sizeA (.cons w ws) = sizeV w + sizeA ws + 1 := rfl
    simp only [sizeA, pyReprA, List.length_append, List.length_cons]
    omega

theorem sizeO_le_repr : ∀ o : JObj, sizeO o ≤ (pyReprO o).length + 1
  | .nil => by simp [sizeO, pyReprO]
  | .kcons k v .nil => by
    have h := sizeV_le_repr v
    simp only [sizeO, sizeO.eq_1, pyReprO, List.length_cons,
      List.length_append]
    omega
  | .kcons k v (.kcons k' w rest) => by
    have h1 := sizeV_le_repr v
    have h2 := sizeO_le_repr (.kcons k' w rest)
    have h3 : sizeO (.kcons k' w rest) = sizeV w + sizeO rest + 1 := rfl
    simp only [sizeO, pyReprO, List.length_append, List.length_cons]
    omega
end

theorem sizeV_pos (v : JVal) : 1 ≤ sizeV v := by
  cases v <;> simp [sizeV]

theorem noDigHead_cons {c : Char} (h : isDig c = false) (r : List Char) :
    noDigHead (c :: r) := by
  intro d hd
  simp only [List.head?_cons, Option.some.injEq] at hd
  subst hd
  exact h

theorem noDigHead_nil : noDigHead [] := by
  intro d hd
  simp at hd

theorem skipWs_cons_space (l : List Char) : skipWs (' ' :: l) = skipWs l := rfl

theorem dumpsV_head_not_rb (v : JVal) :
    ∃ c t, jsonDumpsV v = c :: t ∧ isPySpace c = false ∧ c ≠ ']' ∧ c ≠ '}' := by
  cases v with
  | null => exact ⟨'n', _, rfl, by decide, by decide, by decide⟩
  | bool b =>
    cases b with
    | false => exact ⟨'f', _, rfl, by decide, by decide, by decide⟩
    | true => exact ⟨'t', _, rfl, by decide, by decide, by decide⟩
  | int n =>
    simp only [jsonDumpsV]
    unfold intChars
    by_cases hneg : n < 0
    · exact ⟨'-', _, by rw [if_pos hneg], by decide, by decide, by decide⟩
    · obtain ⟨c, t, heq, hd⟩ := natDigits_head_dig n.natAbs
      obtain ⟨hs, hfacts⟩ := isDig_char_facts hd
      refine ⟨c, t, by rw [if_neg hneg, heq], hs, ?_, ?_⟩
      · rintro rfl; revert hd; decide
      · rintro rfl; revert hd; decide
  | str s => exact ⟨'"', _, rfl, by decide, by decide, by decide⟩
  | arr a => exact ⟨'[', _, rfl, by decide, by decide, by decide⟩
  | obj o => exact ⟨'{', _, rfl, by decide, by decide, by decide⟩

theorem jParseV_int (fuel : Nat) (n : Int) {rest : List Char}
    (hrest : noDigHead rest) :
    jParseV (fuel + 1) (intChars n ++ rest) = some (.int n, rest) := by
  unfold intChars
  by_cases hneg : n < 0
  · rw [if_pos hneg, List.cons_append, jParseV.eq_2,
      skipWs_cons (by decide)]
    simp only [Char.reduceEq, reduceIte]
    rw [parseNatChars_rt n.natAbs hrest]
    simp only [Option.map_some']
    rw [show -((n.natAbs : Int)) = n from by omega]
  · rw [if_neg hneg]
    obtain ⟨c, t, heq, hd⟩ := natDigits_head_dig n.natAbs
    obtain ⟨hs, hq, hq2, hlb, hcb, ht, hf, hn, _, _, _, hm, _, _⟩ :=
      isDig_char_facts hd
    rw [heq, List.cons_append, jParseV.eq_2, skipWs_cons hs]
    simp only [if_neg hq, if_neg hlb, if_neg hcb, if_neg ht, if_neg hf,
      if_neg hn, if_neg hm, hd, reduceIte]
    rw [show c :: (t ++ rest) = (c :: t) ++ rest from rfl, ← heq,
      parseNatChars_rt n.natAbs hrest]
    simp only [Option.map_some']
    rw [show ((n.natAbs : Int)) = n from by omega]

theorem jParseV_str (fuel : Nat) (s : String) (rest : List Char) :
    jParseV (fuel + 1) (jsonDumpsV (.str s) ++ rest) = some (.str s, rest) := by
  show jParseV (fuel + 1) (('"' :: (jsonEsc s.data ++ ['"'])) ++ rest) = _
  rw [List.cons_append, List.append_assoc, List.singleton_append,
    jParseV.eq_2, skipWs_cons (by decide)]
  simp only [Char.reduceEq, reduceIte]
  rw [jStrBody_rt]
  rfl

theorem dumpsA_head_cons (v : JVal) (vs : JArr) :
    ∃ c t, jsonDumpsA (.cons v vs) = c :: t ∧ isPySpace c = false ∧
      c ≠ ']' ∧ c ≠ '}' := by
  obtain ⟨c, t, heq, h1, h2, h3⟩ := dumpsV_head_not_rb v
  cases vs with
  | nil => exact ⟨c, t, heq, h1, h2, h3⟩
  | cons w ws =>
    refine ⟨c, t ++ ',' :: ' ' :: jsonDumpsA (.cons w ws), ?_, h1, h2, h3⟩
    show jsonDumpsV v ++ ',' :: ' ' :: jsonDumpsA (.cons w ws) = _
    rw [heq]
    rfl

theorem dumpsO_head_cons (k : String) (v : JVal) (o : JObj) :
    ∃ t, jsonDumpsO (.kcons k v o) = '"' :: t := by
  cases o with
  | nil => exact ⟨_, rfl⟩
  | kcons k2 v2 o2 => exact ⟨_, rfl⟩

theorem jParse_rt (fuel : Nat) :
    (∀ (v : JVal) (rest : List Char), sizeV v ≤ fuel → noDigHead rest →
      jParseV fuel (jsonDumpsV v ++ rest) = some (v, rest)) ∧
    (∀ (a : JArr) (rest : List Char), a ≠ .nil → sizeA a ≤ fuel →
      jParseA fuel (jsonDumpsA a ++ ']' :: rest) = some (a, rest)) ∧
    (∀ (o : JObj) (rest : List Char), o ≠ .nil → sizeO o ≤ fuel →
      jParseO fuel (jsonDumpsO o ++ '}' :: rest) = some (o, rest)) := by
  induction fuel with
  | zero =>
    refine ⟨?_, ?_, ?_⟩
    · intro v rest hsz _
      have := sizeV_pos v
      omega
    · intro a rest hne hsz
      cases a with
      | nil => exact absurd rfl hne
      | cons v vs => simp [sizeA] at hsz
    · intro o rest hne hsz
      cases o with
      | nil => exact absurd rfl hne
      | kcons k v o' => simp [sizeO] at hsz
  | succ fuel ih =>
    obtain ⟨ihV, ihA, ihO⟩ := ih
    refine ⟨?_, ?_, ?_⟩
    · intro v rest hsz hrest
      cases v with
      | null =>
        show jParseV (fuel + 1) ('n' :: 'u' :: 'l' :: 'l' :: rest) = _
        rw [jParseV.eq_2, skipWs_cons (by decide)]
        simp [List.isPrefixOf, Char.reduceEq]
      | bool b =>
        cases b with
        | true =>
          show jParseV (fuel + 1) ('t' :: 'r' :: 'u' :: 'e' :: rest) = _
          rw [jParseV.eq_2, skipWs_cons (by decide)]
          simp [List.isPrefixOf, Char.reduceEq]
        | false =>
          show jParseV (fuel + 1) ('f' :: 'a' :: 'l' :: 's' :: 'e' :: rest) = _
          rw [jParseV.eq_2, skipWs_cons (by decide)]
          simp [List.isPrefixOf, Char.reduceEq]
      | int n => exact jParseV_int fuel n hrest
      | str s => exact jParseV_str fuel s rest
      | arr a =>
        cases a with
        | nil =>
          show jParseV (fuel + 1) ('[' :: ']' :: rest) = _
          rw [jParseV.eq_2, skipWs_cons (by decide)]
          simp only [Char.reduceEq, reduceIte]
          rw [skipWs_cons (by decide)]
          rfl
        | cons v vs =>
          have hsz' : sizeA (.cons v vs) ≤ fuel := by
            have : sizeV (.arr (.cons v vs)) = sizeA (.cons v vs) + 1 := rfl
            omega
          obtain ⟨c, t, heq, hns, hrb, _⟩ := dumpsA_head_cons v vs
          rw [show jsonDumpsV (.arr (.cons v vs)) ++ rest =
            '[' :: (jsonDumpsA (.cons v vs) ++ ']' :: rest) from by
              simp [jsonDumpsV], jParseV.eq_2, skipWs_cons (by decide)]
          simp only [Char.reduceEq, reduceIte]
          rw [skipWs_append_of_head (by rw [heq]; simp)
            (by rw [heq]; intro d hd; simp only [List.head?_cons,
              Option.some.injEq] at hd; subst hd; exact hns)]
          split
          · next r hmatch =>
            rw [heq, List.cons_append] at hmatch
            have hc : c = ']' := by
              have h2 := congrArg List.head? hmatch
              simpa using h2
            exact absurd hc hrb
          · next =>
            rw [ihA (.cons v vs) rest (by simp) hsz']
            rfl
      | obj o =>
        cases o with
        | nil =>
          show jParseV (fuel + 1) ('{' :: '}' :: rest) = _
          rw [jParseV.eq_2, skipWs_cons (by decide)]
          simp only [Char.reduceEq, reduceIte]
          rw [skipWs_cons (by decide)]
          rfl
        | kcons k v o' =>
          have hsz' : sizeO (.kcons k v o') ≤ fuel := by
            have : sizeV (.obj (.kcons k v o')) = sizeO (.kcons k v o') + 1 := rfl
            omega
          obtain ⟨t, heq⟩ := dumpsO_head_cons k v o'
          rw [show jsonDumpsV (.obj (.kcons k v o')) ++ rest =
            '{' :: (jsonDumpsO (.kcons k v o') ++ '}' :: rest) from by
              simp [jsonDumpsV], jParseV.eq_2, skipWs_cons (by decide)]
          simp only [Char.reduceEq, reduceIte]
          rw [skipWs_append_of_head (by rw [heq]; simp)
            (by rw [heq]; intro d hd; simp only [List.head?_cons,
              Option.some.injEq] at hd; subst hd; decide)]
          split
          · next r hmatch =>
            rw [heq, List.cons_append] at hmatch
            have := congrArg List.head? hmatch
            simp at this
          · next =>
            rw [ihO (.kcons k v o') rest (by simp) hsz']
            rfl
    · intro a rest hne hsz
      cases a with
      | nil => exact absurd rfl hne
      | cons v vs =>
        cases vs with
        | nil =>
          have hszv : sizeV v ≤ fuel := by
            have : sizeA (.cons v .nil) = sizeV v + 0 + 1 := rfl
            omega
          rw [jParseA.eq_2,
            show jsonDumpsA (.cons v .nil) = jsonDumpsV v from rfl,
            ihV v (']' :: rest) hszv (noDigHead_cons (by decide) _)]
          simp only [Option.some_bind]
          rw [skipWs_cons (by decide)]
          rfl
        | cons w ws =>
          have hszs : sizeV v ≤ fuel ∧ sizeA (.cons w ws) ≤ fuel := by
            have h1 : sizeA (.cons v (.cons w ws)) =
              sizeV v + sizeA (.cons w ws) + 1 := rfl
            have h2 : sizeA (.cons w ws) = sizeV w + sizeA ws + 1 := rfl
            have := sizeV_pos w
            omega
          obtain ⟨c2, t2, heq2, hns2, _, _⟩ := dumpsA_head_cons w ws
          rw [jParseA.eq_2,
            show jsonDumpsA (.cons v (.cons w ws)) ++ ']' :: rest =
              jsonDumpsV v ++ (',' :: ' ' ::
                (jsonDumpsA (.cons w ws) ++ ']' :: rest)) from by
                  simp [jsonDumpsA],
            ihV v _ hszs.1 (noDigHead_cons (by decide) _)]
          simp only [Option.some_bind]
          rw [skipWs_cons (by decide)]
          simp only [Char.reduceEq, reduceIte]
          rw [skipWs_cons_space,
            skipWs_append_of_head (by rw [heq2]; simp)
              (by rw [heq2]; intro d hd; simp only [List.head?_cons,
                Option.some.injEq] at hd; subst hd; exact hns2),
            ihA (.cons w ws) rest (by simp) hszs.2]
          rfl
    · intro o rest hne hsz
      cases o with
      | nil => exact absurd rfl hne
      | kcons k v o' =>
        cases o' with
        | nil =>
          have hszv : sizeV v ≤ fuel := by
            have : sizeO (.kcons k v .nil) = sizeV v + 0 + 1 := rfl
            omega
          rw [jParseO.eq_2,
            show jsonDumpsO (.kcons k v .nil) ++ '}' :: rest =
              '"' :: (jsonEsc k.data ++ '"' ::
                (':' :: ' ' :: (jsonDumpsV v ++ '}' :: rest))) from by
                  simp [jsonDumpsO],
            skipWs_cons (by decide)]
          simp only [Char.reduceEq, reduceIte]
          rw [jStrBody_rt]
          simp only [Option.some_bind]
          rw [skipWs_cons (by decide)]
          simp only [Char.reduceEq, reduceIte]
          obtain ⟨cv, tv, heqv, hnsv⟩ := dumpsV_head v
          rw [skipWs_cons_space,
            skipWs_append_of_head (by rw [heqv]; simp)
              (by rw [heqv]; intro d hd; simp only [List.head?_cons,
                Option.some.injEq] at hd; subst hd; exact hnsv),
            ihV v ('}' :: rest) hszv (noDigHead_cons (by decide) _)]
          simp only [Option.some_bind]
          rw [skipWs_cons (by decide)]
          rfl
        | kcons k2 v2 o2 =>
          have hszs : sizeV v ≤ fuel ∧ sizeO (.kcons k2 v2 o2) ≤ fuel := by
            have h1 : sizeO (.kcons k v (.kcons k2 v2 o2)) =
              sizeV v + sizeO (.kcons k2 v2 o2) + 1 := rfl
            have h2 : sizeO (.kcons k2 v2 o2) = sizeV v2 + sizeO o2 + 1 := rfl
            have := sizeV_pos v2
            omega
          obtain ⟨t2, heq2⟩ := dumpsO_head_cons k2 v2 o2
          rw [jParseO.eq_2,
            show jsonDumpsO (.kcons k v (.kcons k2 v2 o2)) ++ '}' :: rest =
              '"' :: (jsonEsc k.data ++ '"' ::
                (':' :: ' ' :: (jsonDumpsV v ++ ',' :: ' ' ::
                  (jsonDumpsO (.kcons k2 v2 o2) ++ '}' :: rest)))) from by
                    simp [jsonDumpsO],
            skipWs_cons (by decide)]
          simp only [Char.reduceEq, reduceIte]
          rw [jStrBody_rt]
          simp only [Option.some_bind]
          rw [skipWs_cons (by decide)]
          simp only [Char.reduceEq, reduceIte]
          obtain ⟨cv, tv, heqv, hnsv⟩ := dumpsV_head v
          rw [skipWs_cons_space,
            skipWs_append_of_head (by rw [heqv]; simp)
              (by rw [heqv]; intro d hd; simp only [List.head?_cons,
                Option.some.injEq] at hd; subst hd; exact hnsv),
            ihV v _ hszs.1 (noDigHead_cons (by decide) _)]
          simp only [Option.some_bind]
          rw [skipWs_cons (by decide)]
          simp only [Char.reduceEq, reduceIte]
          rw [skipWs_cons_space,
            skipWs_append_of_head (by rw [heq2]; simp)
              (by rw [heq2]; intro d hd; simp only [List.head?_cons,
                Option.some.injEq] at hd; subst hd; decide),
            ihO (.kcons k2 v2 o2) rest (by simp) hszs.2]
          rfl

theorem reprV_head_not_rb (v : JVal) :
    ∃ c t, pyReprV v = c :: t ∧ isPySpace c = false ∧ c ≠ ']' ∧ c ≠ '}' := by
  cases v with
  | null => exact ⟨'N', _, rfl, by decide, by decide, by decide⟩
  | bool b =>
    cases b with
    | false => exact ⟨'F', _, rfl, by decide, by decide, by decide⟩
    | true => exact ⟨'T', _, rfl, by decide, by decide, by decide⟩
  | int n =>
    simp only [pyReprV]
    unfold intChars
    by_cases hneg : n < 0
    · exact ⟨'-', _, by rw [if_pos hneg], by decide, by decide, by decide⟩
    · obtain ⟨c, t, heq, hd⟩ := natDigits_head_dig n.natAbs
      refine ⟨c, t, by rw [if_neg hneg, heq], (isDig_char_facts hd).1, ?_, ?_⟩
      · rintro rfl; revert hd; decide
      · rintro rfl; revert hd; decide
  | str s =>
    by_cases hA : (s.data.contains '\'' && !s.data.contains '"') = true
    · refine ⟨'"', s.data.flatMap (pyEscCh '"') ++ ['"'], ?_, by decide,
        by decide, by decide⟩
      simp only [pyReprV, pyReprStr, hA, reduceIte]
    · refine ⟨'\'', s.data.flatMap (pyEscCh '\'') ++ ['\''], ?_, by decide,
        by decide, by decide⟩
      simp only [pyReprV, pyReprStr, if_neg hA]
  | arr a => exact ⟨'[', _, rfl, by decide, by decide, by decide⟩
  | obj o => exact ⟨'{', _, rfl, by decide, by decide, by decide⟩

theorem reprA_head_cons (v : JVal) (vs : JArr) :
    ∃ c t, pyReprA (.cons v vs) = c :: t ∧ isPySpace c = false ∧
      c ≠ ']' ∧ c ≠ '}' := by
  obtain ⟨c, t, heq, h1, h2, h3⟩ := reprV_head_not_rb v
  cases vs with
  | nil => exact ⟨c, t, heq, h1, h2, h3⟩
  | cons w ws =>
    refine ⟨c, t ++ ',' :: ' ' :: pyReprA (.cons w ws), ?_, h1, h2, h3⟩
    show pyReprV v ++ ',' :: ' ' :: pyReprA (.cons w ws) = _
    rw [heq]
    rfl

theorem reprO_head_cons (k : String) (v : JVal) (o : JObj) :
    ∃ q t, pyReprO (.kcons k v o) = q :: t ∧ (q = '\'' ∨ q = '"') := by
  have hshape : ∃ t0, pyReprO (.kcons k v o) = pyReprStr k.data ++ t0 := by
    cases o with
    | nil => exact ⟨_, rfl⟩
    | kcons k2 v2 o2 =>
      exact ⟨':' :: ' ' :: pyReprV v ++ ',' :: ' ' :: pyReprO (.kcons k2 v2 o2),
        by simp [pyReprO]⟩
  obtain ⟨t0, ht0⟩ := hshape
  by_cases hA : (k.data.contains '\'' && !k.data.contains '"') = true
  · refine ⟨'"', k.data.flatMap (pyEscCh '"') ++ '"' :: t0, ?_, Or.inr rfl⟩
    rw [ht0]
    simp only [pyReprStr]
    rw [if_pos hA]
    simp only [List.cons_append, List.append_assoc, List.singleton_append,
      List.nil_append]
  · refine ⟨'\'', k.data.flatMap (pyEscCh '\'') ++ '\'' :: t0, ?_, Or.inl rfl⟩
    rw [ht0]
    simp only [pyReprStr]
    rw [if_neg hA]
    simp only [List.cons_append, List.append_assoc, List.singleton_append,
      List.nil_append]

theorem pParseV_int (fuel : Nat) (n : Int) {rest : List Char}
    (hrest : noDigHead rest) :
    pParseV (fuel + 1) (intChars n ++ rest) = some (.int n, rest) := by
  unfold intChars
  by_cases hneg : n < 0
  · rw [if_pos hneg, List.cons_append, pParseV.eq_2,
      skipWs_cons (by decide)]
    simp only [Char.reduceEq, reduceIte]
    rw [parseNatChars_rt n.natAbs hrest]
    simp only [Option.map_some']
    rw [show -((n.natAbs : Int)) = n from by omega]
  · rw [if_neg hneg]
    obtain ⟨c, t, heq, hd⟩ := natDigits_head_dig n.natAbs
    obtain ⟨hs, hq, hq2, hlb, hcb, _, _, _, hT, hF, hN, hm, _, _⟩ :=
      isDig_char_facts hd
    rw [heq, List.cons_append, pParseV.eq_2, skipWs_cons hs]
    simp only [if_neg hq2, if_neg hq, if_neg hlb, if_neg hcb, if_neg hT,
      if_neg hF, if_neg hN, if_neg hm, hd, reduceIte]
    rw [show c :: (t ++ rest) = (c :: t) ++ rest from rfl, ← heq,
      parseNatChars_rt n.natAbs hrest]
    simp only [Option.map_some']
    rw [show ((n.natAbs : Int)) = n from by omega]

theorem pParseV_strLit (fuel : Nat) (l : List Char) (rest : List Char) :
    pParseV (fuel + 1) (pyReprStr l ++ rest) = some (.str ⟨l⟩, rest) := by
  by_cases hA : (l.contains '\'' && !l.contains '"') = true
  · have hshape : pyReprStr l ++ rest =
        '"' :: (l.flatMap (pyEscCh '"') ++ '"' :: rest) := by
      simp only [pyReprStr]
      rw [if_pos hA]
      simp only [List.cons_append, List.append_assoc, List.singleton_append,
        List.nil_append]
    rw [hshape, pParseV.eq_2, skipWs_cons (by decide)]
    simp only [Char.reduceEq, reduceIte]
    rw [pStrBody_rt (by decide) (by decide)]
    rfl
  · have hshape : pyReprStr l ++ rest =
        '\'' :: (l.flatMap (pyEscCh '\'') ++ '\'' :: rest) := by
      simp only [pyReprStr]
      rw [if_neg hA]
      simp only [List.cons_append, List.append_assoc, List.singleton_append,
        List.nil_append]
    rw [hshape, pParseV.eq_2, skipWs_cons (by decide)]
    simp only [Char.reduceEq, reduceIte]
    rw [pStrBody_rt (by decide) (by decide)]
    rfl
theorem pParseO_entry (fuel : Nat) (k : String) (tail : List Char) :
    pParseO (fuel + 1) (pyReprStr k.data ++ ':' :: ' ' :: tail) =
      (pParseV fuel (skipWs tail)).bind fun p =>
        match skipWs p.2 with
        | ',' :: r2 => (pParseO fuel (skipWs r2)).map
            (fun w => (.kcons ⟨k.data⟩ p.1 w.1, w.2))
        | '}' :: r2 => some (.kcons ⟨k.data⟩ p.1 .nil, r2)
        | _ => none := by
  by_cases hA : (k.data.contains '\'' && !k.data.contains '"') = true
  · have hshape : pyReprStr k.data ++ ':' :: ' ' :: tail =
        '"' :: (k.data.flatMap (pyEscCh '"') ++ '"' :: (':' :: ' ' :: tail)) := by
      simp only [pyReprStr]
      rw [if_pos hA]
      simp only [List.cons_append, List.append_assoc, List.singleton_append,
        List.nil_append]
    rw [hshape, pParseO.eq_2, skipWs_cons (by decide)]
    simp only [Char.reduceEq, reduceIte, Bool.or_true, Bool.true_or]
    rw [pStrBody_rt (by decide) (by decide)]
    simp only [Option.some_bind]
    rw [skipWs_cons (by decide)]
    simp only [Char.reduceEq, reduceIte]
    rw [skipWs_cons_space]
    simp
  · have hshape : pyReprStr k.data ++ ':' :: ' ' :: tail =
        '\'' :: (k.data.flatMap (pyEscCh '\'') ++ '\'' :: (':' :: ' ' :: tail)) := by
      simp only [pyReprStr]
      rw [if_neg hA]
      simp only [List.cons_append, List.append_assoc, List.singleton_append,
        List.nil_append]
    rw [hshape, pParseO.eq_2, skipWs_cons (by decide)]
    simp only [Char.reduceEq, reduceIte, Bool.or_true, Bool.true_or]
    rw [pStrBody_rt (by decide) (by decide)]
    simp only [Option.some_bind]
    rw [skipWs_cons (by decide)]
    simp only [Char.reduceEq, reduceIte]
    rw [skipWs_cons_space]
    simp


theorem pParse_rt (fuel : Nat) :
    (∀ (v : JVal) (rest : List Char), sizeV v ≤ fuel → noDigHead rest →
      pParseV fuel (pyReprV v ++ rest) = some (v, rest)) ∧
    (∀ (a : JArr) (rest : List Char), a ≠ .nil → sizeA a ≤ fuel →
      pParseA fuel (pyReprA a ++ ']' :: rest) = some (a, rest)) ∧
    (∀ (o : JObj) (rest : List Char), o ≠ .nil → sizeO o ≤ fuel →
      pParseO fuel (pyReprO o ++ '}' :: rest) = some (o, rest)) := by
  induction fuel with
  | zero =>
    refine ⟨?_, ?_, ?_⟩
    · intro v rest hsz _
      have := sizeV_pos v
      omega
    · intro a rest hne hsz
      cases a with
      | nil => exact absurd rfl hne
      | cons v vs => simp [sizeA] at hsz
    · intro o rest hne hsz
      cases o with
      | nil => exact absurd rfl hne
      | kcons k v o2 => simp [sizeO] at hsz
  | succ fuel ih =>
    obtain ⟨ihV, ihA, ihO⟩ := ih
    refine ⟨?_, ?_, ?_⟩
    · intro v rest hsz hrest
      cases v with
      | null =>
        show pParseV (fuel + 1) ('N' :: 'o' :: 'n' :: 'e' :: rest) = _
        rw [pParseV.eq_2, skipWs_cons (by decide)]
        simp [List.isPrefixOf, Char.reduceEq]
      | bool b =>
        cases b with
        | true =>
          show pParseV (fuel + 1) ('T' :: 'r' :: 'u' :: 'e' :: rest) = _
          rw [pParseV.eq_2, skipWs_cons (by decide)]
          simp [List.isPrefixOf, Char.reduceEq]
        | false =>
          show pParseV (fuel + 1) ('F' :: 'a' :: 'l' :: 's' :: 'e' :: rest) = _
          rw [pParseV.eq_2, skipWs_cons (by decide)]
          simp [List.isPrefixOf, Char.reduceEq]
      | int n => exact pParseV_int fuel n hrest
      | str s =>
        show pParseV (fuel + 1) (pyReprStr s.data ++ rest) = _
        exact pParseV_strLit fuel s.data rest
      | arr a =>
        cases a with
        | nil =>
          show pParseV (fuel + 1) ('[' :: ']' :: rest) = _
          rw [pParseV.eq_2, skipWs_cons (by decide)]
          simp only [Char.reduceEq, reduceIte]
          rw [skipWs_cons (by decide)]
          rfl
        | cons v vs =>
          have hsz2 : sizeA (.cons v vs) ≤ fuel := by
            have : sizeV (.arr (.cons v vs)) = sizeA (.cons v vs) + 1 := rfl
            omega
          obtain ⟨c, t, heq, hns, hrb, _⟩ := reprA_head_cons v vs
          rw [show pyReprV (.arr (.cons v vs)) ++ rest =
            '[' :: (pyReprA (.cons v vs) ++ ']' :: rest) from by
              simp [pyReprV], pParseV.eq_2, skipWs_cons (by decide)]
          simp only [Char.reduceEq, reduceIte]
          rw [skipWs_append_of_head (by rw [heq]; simp)
            (by rw [heq]; intro d hd; simp only [List.head?_cons,
              Option.some.injEq] at hd; subst hd; exact hns)]
          split
          · next r hmatch =>
            rw [heq, List.cons_append] at hmatch
            have hc : c = ']' := by
              have h2 := congrArg List.head? hmatch
              simpa using h2
            exact absurd hc hrb
          · next =>
            rw [ihA (.cons v vs) rest (by simp) hsz2]
            rfl
      | obj o =>
        cases o with
        | nil =>
          show pParseV (fuel + 1) ('{' :: '}' :: rest) = _
          rw [pParseV.eq_2, skipWs_cons (by decide)]
          simp only [Char.reduceEq, reduceIte]
          rw [skipWs_cons (by decide)]
          rfl
        | kcons k v o2 =>
          have hsz2 : sizeO (.kcons k v o2) ≤ fuel := by
            have : sizeV (.obj (.kcons k v o2)) = sizeO (.kcons k v o2) + 1 := rfl
            omega
          obtain ⟨q, t, heq, hq⟩ := reprO_head_cons k v o2
          rw [show pyReprV (.obj (.kcons k v o2)) ++ rest =
            '{' :: (pyReprO (.kcons k v o2) ++ '}' :: rest) from by
              simp [pyReprV], pParseV.eq_2, skipWs_cons (by decide)]
          simp only [Char.reduceEq, reduceIte]
          have hh : ∀ d, (pyReprO (.kcons k v o2)).head? = some d →
              isPySpace d = false := by
            rw [heq]
            intro d hd
            simp only [List.head?_cons, Option.some.injEq] at hd
            subst hd
            rcases hq with rfl | rfl <;> decide
          rw [skipWs_append_of_head (by rw [heq]; simp) hh]
          split
          · next r hmatch =>
            rw [heq, List.cons_append] at hmatch
            have hc : q = '}' := by
              have h2 := congrArg List.head? hmatch
              simpa using h2
            rcases hq with rfl | rfl <;> simp at hc
          · next =>
            rw [ihO (.kcons k v o2) rest (by simp) hsz2]
            rfl
    · intro a rest hne hsz
      cases a with
      | nil => exact absurd rfl hne
      | cons v vs =>
        cases vs with
        | nil =>
          have hszv : sizeV v ≤ fuel := by
            have : sizeA (.cons v .nil) = sizeV v + 0 + 1 := rfl
            omega
          rw [pParseA.eq_2,
            show pyReprA (.cons v .nil) = pyReprV v from rfl,
            ihV v (']' :: rest) hszv (noDigHead_cons (by decide) _)]
          simp only [Option.some_bind]
          rw [skipWs_cons (by decide)]
          rfl
        | cons w ws =>
          have hszs : sizeV v ≤ fuel ∧ sizeA (.cons w ws) ≤ fuel := by
            have h1 : sizeA (.cons v (.cons w ws)) =
              sizeV v + sizeA (.cons w ws) + 1 := rfl
            have h2 : sizeA (.cons w ws) = sizeV w + sizeA ws + 1 := rfl
            have := sizeV_pos w
            omega
          obtain ⟨c2, t2, heq2, hns2, _, _⟩ := reprA_head_cons w ws
          rw [pParseA.eq_2,
            show pyReprA (.cons v (.cons w ws)) ++ ']' :: rest =
              pyReprV v ++ (',' :: ' ' ::
                (pyReprA (.cons w ws) ++ ']' :: rest)) from by
                  simp [pyReprA],
            ihV v _ hszs.1 (noDigHead_cons (by decide) _)]
          simp only [Option.some_bind]
          rw [skipWs_cons (by decide)]
          simp only [Char.reduceEq, reduceIte]
          rw [skipWs_cons_space,
            skipWs_append_of_head (by rw [heq2]; simp)
              (by rw [heq2]; intro d hd; simp only [List.head?_cons,
                Option.some.injEq] at hd; subst hd; exact hns2),
            ihA (.cons w ws) rest (by simp) hszs.2]
          rfl
    · intro o rest hne hsz
      cases o with
      | nil => exact absurd rfl hne
      | kcons k v o2 =>
        cases o2 with
        | nil =>
          have hszv : sizeV v ≤ fuel := by
            have : sizeO (.kcons k v .nil) = sizeV v + 0 + 1 := rfl
            omega
          rw [show pyReprO (.kcons k v .nil) ++ '}' :: rest =
            pyReprStr k.data ++ ':' :: ' ' :: (pyReprV v ++ '}' :: rest) from by
              simp [pyReprO], pParseO_entry]
          obtain ⟨cv, tv, heqv, hnsv⟩ := reprV_head v
          rw [skipWs_append_of_head (by rw [heqv]; simp)
              (by rw [heqv]; intro d hd; simp only [List.head?_cons,
                Option.some.injEq] at hd; subst hd; exact hnsv),
            ihV v ('}' :: rest) hszv (noDigHead_cons (by decide) _)]
          simp only [Option.some_bind]
          rw [skipWs_cons (by decide)]
          rfl
        | kcons k2 v2 o3 =>
          have hszs : sizeV v ≤ fuel ∧ sizeO (.kcons k2 v2 o3) ≤ fuel := by
            have h1 : sizeO (.kcons k v (.kcons k2 v2 o3)) =
              sizeV v + sizeO (.kcons k2 v2 o3) + 1 := rfl
            have h2 : sizeO (.kcons k2 v2 o3) = sizeV v2 + sizeO o3 + 1 := rfl
            have := sizeV_pos v2
            omega
          obtain ⟨q2, t2, heq2, hq2⟩ := reprO_head_cons k2 v2 o3
          rw [show pyReprO (.kcons k v (.kcons k2 v2 o3)) ++ '}' :: rest =
            pyReprStr k.data ++ ':' :: ' ' :: (pyReprV v ++ ',' :: ' ' ::
              (pyReprO (.kcons k2 v2 o3) ++ '}' :: rest)) from by
                simp [pyReprO], pParseO_entry]
          obtain ⟨cv, tv, heqv, hnsv⟩ := reprV_head v
          rw [skipWs_append_of_head (by rw [heqv]; simp)
              (by rw [heqv]; intro d hd; simp only [List.head?_cons,
                Option.some.injEq] at hd; subst hd; exact hnsv),
            ihV v _ hszs.1 (noDigHead_cons (by decide) _)]
          simp only [Option.some_bind]
          rw [skipWs_cons (by decide)]
          simp only [Char.reduceEq, reduceIte]
          have hh2 : ∀ d, (pyReprO (.kcons k2 v2 o3)).head? = some d →
              isPySpace d = false := by
            rw [heq2]
            intro d hd
            simp only [List.head?_cons, Option.some.injEq] at hd
            subst hd
            rcases hq2 with rfl | rfl <;> decide
          rw [skipWs_cons_space,
            skipWs_append_of_head (by rw [heq2]; simp) hh2,
            ihO (.kcons k2 v2 o3) rest (by simp) hszs.2]
          rfl


theorem jsonLoads_dumps (v : JVal) : jsonLoads (jsonDumpsV v) = some v := by
  unfold jsonLoads
  have hf : sizeV v ≤ (jsonDumpsV v).length + 1 := by
    have := sizeV_le_dumps v
    omega
  have h := (jParse_rt ((jsonDumpsV v).length + 1)).1 v [] hf noDigHead_nil
  rw [List.append_nil] at h
  rw [h]
  rfl

theorem pyEvalLit_repr (v : JVal) : pyEvalLit (pyReprV v) = some v := by
  unfold pyEvalLit
  have hf : sizeV v ≤ (pyReprV v).length + 1 := by
    have := sizeV_le_repr v
    omega
  have h := (pParse_rt ((pyReprV v).length + 1)).1 v [] hf noDigHead_nil
  rw [List.append_nil] at h
  rw [h]
  rfl

theorem pyEvalLit_reprStr (l : List Char) :
    pyEvalLit (pyReprStr l) = some (.str ⟨l⟩) := by
  unfold pyEvalLit
  have h := pParseV_strLit ((pyReprStr l).length) l []
  rw [List.append_nil] at h
  rw [h]
  rfl

theorem evalArgTokens_eq (ps : List JVal) :
    evalArgTokens ps = some (ps.map (fun p => jsonDumpsV p)) := by
  induction ps with
  | nil => rfl
  | cons p ps ih =>
    unfold evalArgTokens at ih ⊢
    rw [List.mapM_cons, ih]
    simp [pyEvalLit_reprStr (jsonDumpsV p)]

theorem decode_argv (ps : List JVal) :
    (ps.map (fun p => jsonDumpsV p)).mapM jsonLoads = some ps := by
  induction ps with
  | nil => rfl
  | cons p ps ih =>
    rw [List.map_cons, List.mapM_cons, jsonLoads_dumps, ih]
    rfl

/-! ## Lemmas: Python equality is reflexive on canonical values -/

theorem lookup_kcons_ne {k k1 : String} {v : JVal} {b : JObj}
    (h : k ≠ k1) : (JObj.kcons k v b).lookup k1 = b.lookup k1 := by
  simp [JObj.lookup, h]

theorem pyEqO_skip : ∀ (a : JObj) {k : String} {v : JVal} {b : JObj},
    (∀ k' ∈ a.keys, k' ≠ k) → pyEqO a (.kcons k v b) = pyEqO a b
  | .nil, _, _, _, _ => rfl
  | .kcons k1 v1 rest, k, v, b, h => by
    have hk1 : k ≠ k1 := fun he => (h k1 (by simp [JObj.keys])) he.symm
    rw [pyEqO, pyEqO, lookup_kcons_ne hk1,
      pyEqO_skip rest (fun k' hk' => h k' (by simp [JObj.keys, hk']))]

mutual
theorem pyEq_refl : ∀ v : JVal, canonV v = true → pyEq v v = true
  | .null, _ => rfl
  | .bool b, _ => by simp [pyEq]
  | .int n, _ => by simp [pyEq]
  | .str s, _ => by simp [pyEq]
  | .arr a, h => by
    rw [pyEq]
    exact pyEqA_refl a h
  | .obj o, h => by
    rw [pyEq]
    simp only [beq_self_eq_true, Bool.true_and]
    exact pyEqO_refl o h

theorem pyEqA_refl : ∀ a : JArr, canonA a = true → pyEqA a a = true
  | .nil, _ => rfl
  | .cons v vs, h => by
    have h2 : canonV v = true ∧ canonA vs = true := by
      have : canonA (.cons v vs) = (canonV v && canonA vs) := rfl
      rw [this, Bool.and_eq_true] at h
      exact h
    rw [pyEqA, pyEq_refl v h2.1, pyEqA_refl vs h2.2]
    rfl

theorem pyEqO_refl : ∀ o : JObj, canonO o = true → pyEqO o o = true
  | .nil, _ => rfl
  | .kcons k v rest, h => by
    have h2 : (!(rest.keys.contains k)) = true ∧ canonV v = true ∧
        canonO rest = true := by
      have : canonO (.kcons k v rest) =
        (!(rest.keys.contains k) && canonV v && canonO rest) := rfl
      rw [this, Bool.and_eq_true, Bool.and_eq_true] at h
      exact ⟨h.1.1, h.1.2, h.2⟩
    obtain ⟨hk, hv, hrest⟩ := h2
    rw [pyEqO]
    have hlk : (JObj.kcons k v rest).lookup k = some v := by
      simp [JObj.lookup]
    rw [hlk]
    have hknot : ∀ k' ∈ rest.keys, k' ≠ k := by
      intro k' hk' he
      subst he
      simp only [Bool.not_eq_true'] at hk
      simp at hk
      exact hk hk'
    rw [pyEqO_skip rest hknot]
    show (pyEq v v && pyEqO rest rest) = true
    rw [pyEq_refl v hv, pyEqO_refl rest hrest]
    rfl
end

/-! ## Lemmas: printer output contains no newline (for `splitlines`) -/

theorem okChar_ne_nl {c : Char} (h : okChar c = true) : c ≠ '\n' := by
  rintro rfl
  revert h
  decide

theorem jsonEsc_no_nl {l : List Char} (h : ∀ c ∈ l, okChar c = true) :
    ∀ c ∈ jsonEsc l, c ≠ '\n' := by
  intro c hc
  simp only [jsonEsc, List.mem_flatMap] at hc
  obtain ⟨x, hx, hcx⟩ := hc
  unfold jsonEscCh at hcx
  split at hcx
  · simp at hcx
    rcases hcx with rfl | rfl <;> decide
  · split at hcx
    · simp at hcx
      rcases hcx with rfl | rfl <;> decide
    · simp at hcx
      subst hcx
      exact okChar_ne_nl (h _ hx)

theorem pyEsc_no_nl {q : Char} (hq : q ≠ '\n') {l : List Char}
    (h : ∀ c ∈ l, okChar c = true) :
    ∀ c ∈ l.flatMap (pyEscCh q), c ≠ '\n' := by
  intro c hc
  simp only [List.mem_flatMap] at hc
  obtain ⟨x, hx, hcx⟩ := hc
  unfold pyEscCh at hcx
  split at hcx
  · simp at hcx
    rcases hcx with rfl | rfl <;> decide
  · split at hcx
    · simp at hcx
      rcases hcx with rfl | rfl
      · decide
      · exact hq
    · simp at hcx
      subst hcx
      exact okChar_ne_nl (h _ hx)

theorem pyReprStr_no_nl {l : List Char} (h : ∀ c ∈ l, okChar c = true) :
    ∀ c ∈ pyReprStr l, c ≠ '\n' := by
  intro c hc
  unfold pyReprStr at hc
  split at hc <;>
  · simp only [List.mem_cons, List.mem_append, List.mem_singleton, List.not_mem_nil, or_false] at hc
    rcases hc with rfl | hc | rfl
    · decide
    · exact pyEsc_no_nl (by decide) h c hc
    · decide

theorem intChars_no_nl (n : Int) : ∀ c ∈ intChars n, c ≠ '\n' := by
  intro c hc
  unfold intChars at hc
  have hdig : ∀ c ∈ natDigits n.natAbs, c ≠ '\n' := by
    intro d hd
    exact (isDig_char_facts (natDigits_all_dig _ d hd)).2.2.2.2.2.2.2.2.2.2.2.2.2
  split at hc
  · rcases List.mem_cons.mp hc with rfl | hc
    · decide
    · exact hdig c hc
  · exact hdig c hc

mutual
theorem dumpsV_no_nl : ∀ v : JVal, strOkV v = true →
    ∀ c ∈ jsonDumpsV v, c ≠ '\n'
  | .null, _ => by intro c hc; simp [jsonDumpsV] at hc; rcases hc with rfl | rfl | rfl | rfl <;> decide
  | .bool true, _ => by intro c hc; simp [jsonDumpsV] at hc; rcases hc with rfl | rfl | rfl | rfl <;> decide
  | .bool false, _ => by intro c hc; simp [jsonDumpsV] at hc; rcases hc with rfl | rfl | rfl | rfl | rfl <;> decide
  | .int n, _ => intChars_no_nl n
  | .str s, h => by
    intro c hc
    simp only [jsonDumpsV, List.mem_cons, List.mem_append,
      List.mem_singleton, List.not_mem_nil, or_false] at hc
    rcases hc with rfl | hc | rfl
    · decide
    · exact jsonEsc_no_nl (fun d hd => by
        have : okStr s = true := h
        unfold okStr at this
        exact List.all_eq_true.mp this d hd) c hc
    · decide
  | .arr a, h => by
    intro c hc
    simp only [jsonDumpsV, List.mem_cons, List.mem_append,
      List.mem_singleton, List.not_mem_nil, or_false] at hc
    rcases hc with rfl | hc | rfl
    · decide
    · exact dumpsA_no_nl a h c hc
    · decide
  | .obj o, h => by
    intro c hc
    simp only [jsonDumpsV, List.mem_cons, List.mem_append,
      List.mem_singleton, List.not_mem_nil, or_false] at hc
    rcases hc with rfl | hc | rfl
    · decide
    · exact dumpsO_no_nl o h c hc
    · decide

theorem dumpsA_no_nl : ∀ a : JArr, strOkA a = true →
    ∀ c ∈ jsonDumpsA a, c ≠ '\n'
  | .nil, _ => by intro c hc; simp [jsonDumpsA] at hc
  | .cons v .nil, h => by
    intro c hc
    have hv : strOkV v = true := by
      have : strOkA (.cons v .nil) = (strOkV v && strOkA .nil) := rfl
      rw [this, Bool.and_eq_true] at h
      exact h.1
    exact dumpsV_no_nl v hv c hc
  | .cons v (.cons w ws), h => by
    intro c hc
    have h2 : strOkV v = true ∧ strOkA (.cons w ws) = true := by
      have : strOkA (.cons v (.cons w ws)) =
        (strOkV v && strOkA (.cons w ws)) := rfl
      rw [this, Bool.and_eq_true] at h
      exact h
    simp only [jsonDumpsA, List.mem_append, List.mem_cons, List.mem_singleton, List.not_mem_nil, or_false] at hc
    rcases hc with hc | rfl | rfl | hc
    · exact dumpsV_no_nl v h2.1 c hc
    · decide
    · decide
    · exact dumpsA_no_nl (.cons w ws) h2.2 c hc

theorem dumpsO_no_nl : ∀ o : JObj, strOkO o = true →
    ∀ c ∈ jsonDumpsO o, c ≠ '\n'
  | .nil, _ => by intro c hc; simp [jsonDumpsO] at hc
  | .kcons k v .nil, h => by
    intro c hc
    have h2 : okStr k = true ∧ strOkV v = true := by
      have : strOkO (.kcons k v .nil) =
        (okStr k && strOkV v && strOkO .nil) := rfl
      rw [this, Bool.and_eq_true, Bool.and_eq_true] at h
      exact ⟨h.1.1, h.1.2⟩
    simp only [jsonDumpsO, List.mem_cons, List.mem_append, List.mem_singleton, List.not_mem_nil, or_false] at hc
    rcases hc with rfl | hc | rfl | rfl | rfl | hc
    · decide
    · exact jsonEsc_no_nl (fun d hd =>
        List.all_eq_true.mp h2.1 d hd) c hc
    · decide
    · decide
    · decide
    · exact dumpsV_no_nl v h2.2 c hc
  | .kcons k v (.kcons k2 w o2), h => by
    intro c hc
    have h2 : okStr k = true ∧ strOkV v = true ∧
        strOkO (.kcons k2 w o2) = true := by
      have : strOkO (.kcons k v (.kcons k2 w o2)) =
        (okStr k && strOkV v && strOkO (.kcons k2 w o2)) := rfl
      rw [this, Bool.and_eq_true, Bool.and_eq_true] at h
      exact ⟨h.1.1, h.1.2, h.2⟩
    simp only [jsonDumpsO, List.mem_cons, List.mem_append, List.mem_singleton, List.not_mem_nil, or_false] at hc
    rcases hc with (rfl | hc | rfl | rfl | rfl | hc) | rfl | rfl | hc
    · decide
    · exact jsonEsc_no_nl (fun d hd =>
        List.all_eq_true.mp h2.1 d hd) c hc
    · decide
    · decide
    · decide
    · exact dumpsV_no_nl v h2.2.1 c hc
    · decide
    · decide
    · exact dumpsO_no_nl (.kcons k2 w o2) h2.2.2 c hc
end

mutual
theorem reprV_no_nl : ∀ v : JVal, strOkV v = true →
    ∀ c ∈ pyReprV v, c ≠ '\n'
  | .null, _ => by intro c hc; simp [pyReprV] at hc; rcases hc with rfl | rfl | rfl | rfl <;> decide
  | .bool true, _ => by intro c hc; simp [pyReprV] at hc; rcases hc with rfl | rfl | rfl | rfl <;> decide
  | .bool false, _ => by intro c hc; simp [pyReprV] at hc; rcases hc with rfl | rfl | rfl | rfl | rfl <;> decide
  | .int n, _ => intChars_no_nl n
  | .str s, h => by
    intro c hc
    have hok : ∀ d ∈ s.data, okChar d = true := by
      have hs : okStr s = true := h
      unfold okStr at hs
      exact List.all_eq_true.mp hs
    exact pyReprStr_no_nl hok c hc
  | .arr a, h => by
    intro c hc
    simp only [pyReprV, List.mem_cons, List.mem_append,
      List.mem_singleton, List.not_mem_nil, or_false] at hc
    rcases hc with rfl | hc | rfl
    · decide
    · exact reprA_no_nl a h c hc
    · decide
  | .obj o, h => by
    intro c hc
    simp only [pyReprV, List.mem_cons, List.mem_append,
      List.mem_singleton, List.not_mem_nil, or_false] at hc
    rcases hc with rfl | hc | rfl
    · decide
    · exact reprO_no_nl o h c hc
    · decide

theorem reprA_no_nl : ∀ a : JArr, strOkA a = true →
    ∀ c ∈ pyReprA a, c ≠ '\n'
  | .nil, _ => by intro c hc; simp [pyReprA] at hc
  | .cons v .nil, h => by
    intro c hc
    have hv : strOkV v = true := by
      have : strOkA (.cons v .nil) = (strOkV v && strOkA .nil) := rfl
      rw [this, Bool.and_eq_true] at h
      exact h.1
    exact reprV_no_nl v hv c hc
  | .cons v (.cons w ws), h => by
    intro c hc
    have h2 : strOkV v = true ∧ strOkA (.cons w ws) = true := by
      have : strOkA (.cons v (.cons w ws)) =
        (strOkV v && strOkA (.cons w ws)) := rfl
      rw [this, Bool.and_eq_true] at h
      exact h
    simp only [pyReprA, List.mem_append, List.mem_cons, List.mem_singleton, List.not_mem_nil, or_false] at hc
    rcases hc with hc | rfl | rfl | hc
    · exact reprV_no_nl v h2.1 c hc
    · decide
    · decide
    · exact reprA_no_nl (.cons w ws) h2.2 c hc

theorem reprO_no_nl : ∀ o : JObj, strOkO o = true →
    ∀ c ∈ pyReprO o, c ≠ '\n'
  | .nil, _ => by intro c hc; simp [pyReprO] at hc
  | .kcons k v .nil, h => by
    intro c hc
    have h2 : okStr k = true ∧ strOkV v = true := by
      have : strOkO (.kcons k v .nil) =
        (okStr k && strOkV v && strOkO .nil) := rfl
      rw [this, Bool.and_eq_true, Bool.and_eq_true] at h
      exact ⟨h.1.1, h.1.2⟩
    simp only [pyReprO, List.mem_cons, List.mem_append, List.mem_singleton, List.not_mem_nil, or_false] at hc
    rcases hc with hc | rfl | rfl | hc
    · exact pyReprStr_no_nl (List.all_eq_true.mp h2.1) c hc
    · decide
    · decide
    · exact reprV_no_nl v h2.2 c hc
  | .kcons k v (.kcons k2 w o2), h => by
    intro c hc
    have h2 : okStr k = true ∧ strOkV v = true ∧
        strOkO (.kcons k2 w o2) = true := by
      have : strOkO (.kcons k v (.kcons k2 w o2)) =
        (okStr k && strOkV v && strOkO (.kcons k2 w o2)) := rfl
      rw [this, Bool.and_eq_true, Bool.and_eq_true] at h
      exact ⟨h.1.1, h.1.2, h.2⟩
    simp only [pyReprO, List.mem_cons, List.mem_append, List.mem_singleton, List.not_mem_nil, or_false] at hc
    rcases hc with (hc | rfl | rfl | hc) | rfl | rfl | hc
    · exact pyReprStr_no_nl (List.all_eq_true.mp h2.1) c hc
    · decide
    · decide
    · exact reprV_no_nl v h2.2.1 c hc
    · decide
    · decide
    · exact reprO_no_nl (.kcons k2 w o2) h2.2.2 c hc
end

/-! ## The success path of one generated test case -/

theorem strip_dumps (v : JVal) : pyStrip (jsonDumpsV v) = jsonDumpsV v := by
  obtain ⟨c, t, heq, hns⟩ := dumpsV_head v
  obtain ⟨d, hd, hnsd⟩ := dumpsV_last v
  refine pyStrip_eq_self ?_ ?_
  · intro x hx
    rw [heq] at hx
    simp only [List.head?_cons, Option.some.injEq] at hx
    subst hx
    exact hns
  · intro x hx
    rw [hd] at hx
    simp only [Option.some.injEq] at hx
    subst hx
    exact hnsd

theorem debug_stderr_strip (v : JVal) :
    pyStrip (("[DEBUG] Результат перед JSON: ".data ++ pyReprV v) ++
      '\n' :: ("[DEBUG] JSON результат: ".data ++ jsonDumpsV v)) =
    ("[DEBUG] Результат перед JSON: ".data ++ pyReprV v) ++
      '\n' :: ("[DEBUG] JSON результат: ".data ++ jsonDumpsV v) := by
  obtain ⟨cd, hcd, hnsd⟩ := dumpsV_last v
  obtain ⟨c0, t0, heq0, _⟩ := dumpsV_head v
  refine pyStrip_eq_self ?_ ?_
  · intro x hx
    rw [show "[DEBUG] Результат перед JSON: ".data =
      '[' :: "DEBUG] Результат перед JSON: ".data from rfl,
      List.cons_append, List.cons_append] at hx
    simp only [List.head?_cons, Option.some.injEq] at hx
    subst hx
    decide
  · intro x hx
    rw [List.getLast?_append_of_ne_nil _ (by simp)] at hx
    rw [show ('\n' :: ("[DEBUG] JSON результат: ".data ++ jsonDumpsV v)) =
      ['\n'] ++ ("[DEBUG] JSON результат: ".data ++ jsonDumpsV v) from rfl,
      List.getLast?_append_of_ne_nil _ (by simp [heq0]),
      List.getLast?_append_of_ne_nil _ (by simp [heq0]), hcd] at hx
    simp only [Option.some.injEq] at hx
    subst hx
    exact hnsd

theorem debug_stderr_no_json_line (v : JVal) (hok : strOkV v = true) :
    first_json_line
      (("[DEBUG] Результат перед JSON: ".data ++ pyReprV v) ++
        '\n' :: ("[DEBUG] JSON результат: ".data ++ jsonDumpsV v)) = none := by
  have hnl1 : '\n' ∉ "[DEBUG] Результат перед JSON: ".data ++ pyReprV v := by
    intro hm
    rcases List.mem_append.mp hm with hm | hm
    · revert hm
      decide
    · exact reprV_no_nl v hok '\n' hm rfl
  have hnl2 : '\n' ∉ "[DEBUG] JSON результат: ".data ++ jsonDumpsV v := by
    intro hm
    rcases List.mem_append.mp hm with hm | hm
    · revert hm
      decide
    · exact dumpsV_no_nl v hok '\n' hm rfl
  unfold first_json_line
  rw [pySplit_append_sep _ hnl1, pySplit_no_sep hnl2]
  have hpred : ∀ (P : List Char) (w : List Char), P.head? = some '[' →
      isPySpace '[' = false →
      ((pyStrip (P ++ w)).head? == some '{') = false := by
    intro P w hP hsp
    have hh : (P ++ w).head? = some '[' := by
      cases P with
      | nil => simp at hP
      | cons a t =>
        simp only [List.head?_cons, Option.some.injEq] at hP
        subst hP
        rfl
    rw [pyStrip_head hh hsp]
    decide
  rw [List.find?]
  rw [hpred _ _ (by decide) (by decide)]
  rw [List.find?]
  rw [hpred _ _ (by decide) (by decide)]
  rfl

theorem classify_child_ret (v e : JVal) (hok : strOkV v = true)
    (hpe : pyEq v e = true) :
    classify_child ⟨jsonDumpsV v,
      ("[DEBUG] Результат перед JSON: ".data ++ pyReprV v) ++
        '\n' :: ("[DEBUG] JSON результат: ".data ++ jsonDumpsV v), 0⟩ e =
      ⟨none, none, none⟩ := by
  unfold classify_child
  rw [debug_stderr_strip, strip_dumps]
  simp only [Int.reduceEq, reduceIte, ne_eq, not_true_eq_false,
    not_false_eq_true, Bool.false_eq_true]
  rw [debug_stderr_no_json_line v hok]
  have hnl : '\n' ∉ jsonDumpsV v := fun hm => dumpsV_no_nl v hok '\n' hm rfl
  rw [pySplit_no_sep hnl, lastPiece_single, jsonLoads_dumps]
  simp [hpe]

theorem subject_main_echo (ps : List JVal) :
    subject_main true (ps.map (fun p => jsonDumpsV p))
      (some (fun args => .ret (.arr (JArr.ofList args)))) =
      ⟨jsonDumpsV (.arr (JArr.ofList ps)),
       ("[DEBUG] Результат перед JSON: ".data ++ pyReprV (.arr (JArr.ofList ps))) ++
         '\n' :: ("[DEBUG] JSON результат: ".data ++ jsonDumpsV (.arr (JArr.ofList ps))),
       0⟩ := by
  unfold subject_main
  rw [decode_argv]
  rfl

theorem run_generated_case_echo (ps : List JVal)
    (hcan : canonV (.arr (JArr.ofList ps)) = true)
    (hok : strOkV (.arr (JArr.ofList ps)) = true) :
    run_generated_case ps (.arr (JArr.ofList ps)) true
      (some (fun args => .ret (.arr (JArr.ofList args)))) =
      .ran ⟨none, none, none⟩ := by
  unfold run_generated_case
  rw [show pyStrTop (.arr (JArr.ofList ps)) = pyReprV (.arr (JArr.ofList ps))
    from rfl, pyEvalLit_repr, evalArgTokens_eq]
  show CaseResult.ran (classify_child (subject_main true
    (List.map (fun p => jsonDumpsV p) ps)
    (some fun args => PyFunRes.ret (JVal.arr (JArr.ofList args))))
    (JVal.arr (JArr.ofList ps))) = _
  rw [subject_main_echo ps, classify_child_ret _ _ hok (pyEq_refl _ hcan)]

theorem classify_child_nonzero (ch : ChildResult) (e : JVal)
    (h : ch.exitCode ≠ 0) :
    (classify_child ch e).errType =
      some (.str (if ch.exitCode = 42 then "SECURITY_VIOLATION"
        else if ch.exitCode = 2 then "MAIN_NOT_FOUND" else "NON_ZERO_EXIT")) := by
  unfold classify_child
  by_cases h42 : ch.exitCode = 42
  · simp [h42]
  · by_cases h2 : ch.exitCode = 2
    · simp [h42, h2]
    · simp [h42, h2, h]

theorem run_null_fails (params : List JVal) (expected : JVal) :
    case_passes (run_generated_case params expected true
      (some (fun _ => PyFunRes.ret .null))) = false := by
  unfold run_generated_case
  cases hE : pyEvalLit (pyStrTop expected) with
  | none => rfl
  | some e =>
    cases hA : evalArgTokens params with
    | none => rfl
    | some argv =>
      have hsub : ∃ m, subject_main true argv
          (some (fun _ => PyFunRes.ret .null)) = childRuntimeError m := by
        unfold subject_main
        cases hD : argv.mapM jsonLoads with
        | none => exact ⟨_, rfl⟩
        | some args => exact ⟨_, rfl⟩
      obtain ⟨m, hm⟩ := hsub
      show case_passes (.ran (classify_child (subject_main true argv
        (some fun _ => PyFunRes.ret JVal.null)) e)) = false
      rw [hm]
      rfl

/-! ## Suite assembly: ordering and verdict-id lemmas -/

theorem pass_not_unittest_error (c : SuiteCase)
    (h : case_passes c.result = true) : is_unittest_error c = false := by
  unfold is_unittest_error
  cases hr : c.result with
  | notRan => rw [hr] at h; exact absurd h (by simp [case_passes])
  | ran st => rfl

theorem run_suite_aux_spec : ∀ (cs succ fails errs : List SuiteCase),
    run_suite_aux cs succ fails errs =
      (succ ++ cs.filter (fun c => case_passes c.result),
       fails ++ cs.filter
         (fun c => !case_passes c.result && !is_unittest_error c),
       errs ++ cs.filter (fun c => is_unittest_error c)) := by
  intro cs
  induction cs with
  | nil => intro succ fails errs; simp [run_suite_aux]
  | cons c cs ih =>
    intro succ fails errs
    rw [run_suite_aux]
    by_cases hp : case_passes c.result
    · rw [if_pos hp, ih]
      simp [List.filter_cons, hp, pass_not_unittest_error c hp]
    · rw [if_neg hp]
      by_cases he : is_unittest_error c
      · rw [if_pos he, ih]
        simp only [List.filter_cons]
        simp [hp, he]
      · rw [if_neg he, ih]
        simp only [List.filter_cons]
        simp [hp, he]

theorem driver_output_spec (cases : List SuiteCase) :
    driver_output cases =
      ((sortByMethodName cases).filter
        (fun c => case_passes c.result)).map success_verdict ++
      (((sortByMethodName cases).filter
        (fun c => !case_passes c.result && !is_unittest_error c)).map
          fail_verdict ++
       ((sortByMethodName cases).filter
        (fun c => is_unittest_error c)).map fail_verdict) := by
  unfold driver_output
  rw [run_suite_aux_spec]
  simp

theorem method_name_data (tid : String) :
    (method_name tid).data =
      "test".data ++ '_' :: ("case".data ++ '_' :: tid.data) := by
  show ("test_case_" ++ tid).data = _
  rw [String.data_append]
  rfl

theorem verdict_id_mangle (tid : String) :
    verdict_id_of_method (method_name tid) =
      ⟨lastPiece (pySplit '_' tid.data)⟩ := by
  unfold verdict_id_of_method
  rw [method_name_data,
    pySplit_append_sep _ (by decide),
    pySplit_append_sep _ (by decide),
    lastPiece_cons_of_ne_nil (by simp),
    lastPiece_cons_of_ne_nil (pySplit_ne_nil _ _)]

theorem verdict_id_no_underscore {tid : String} (h : '_' ∉ tid.data) :
    verdict_id_of_method (method_name tid) = tid := by
  rw [verdict_id_mangle, pySplit_no_sep h, lastPiece_single]

theorem default_id_no_underscore (idx : Nat) :
    '_' ∉ (test_id idx none).data := by
  intro hm
  have : '_' ∈ natDigits (idx + 1) := hm
  exact (isDig_char_facts (natDigits_all_dig _ _ this)).2.2.2.2.2.2.2.2.2.2.2.2.1 rfl

/-! # Claim theorems -/

set_option maxRecDepth 8000 in
/-- C1 (code bug, concrete evaluation): a two-case suite in which the
first case fails its assertion (echo subject returns `[1]`, expected `2`)
and the second passes.  The driver process always exits `0`
(`unittest.TextTestRunner.run` is not followed by `sys.exit`), and
`_parse_test_results` sets the envelope status from the exit code alone,
so the run result has `status = "success"` while `test_statuses`
contains a verdict with status `"fail"` — contradicting the claim that
overall `"success"` implies every per-test verdict is `"success"`. -/
theorem claim_c1 :
    driver_exit_code = 0 ∧
    (parse_test_results (driver_stdout
        [⟨test_id 0 none, run_generated_case [.int 1] (.int 2) true
            (some fun args => .ret (.arr (JArr.ofList args)))⟩,
         ⟨test_id 1 none, run_generated_case [.int 1]
            (.arr (JArr.ofList [.int 1])) true
            (some fun args => .ret (.arr (JArr.ofList args)))⟩])
      [] driver_exit_code []).map RunResult.status = some "success" ∧
    (parse_test_results (driver_stdout
        [⟨test_id 0 none, run_generated_case [.int 1] (.int 2) true
            (some fun args => .ret (.arr (JArr.ofList args)))⟩,
         ⟨test_id 1 none, run_generated_case [.int 1]
            (.arr (JArr.ofList [.int 1])) true
            (some fun args => .ret (.arr (JArr.ofList args)))⟩])
      [] driver_exit_code []).map
        (fun r => r.testStatuses.map verdictStatus) =
      some [some (.str "success"), some (.str "fail")] :=
  ⟨rfl, by rfl, by rfl⟩

/-- C2 (counterexample): the audit hook admits the import of `sys`
(it is in the generated `WHITELIST` base and not in `BLACKLIST`), while
the claim's rule — root in `WHITELIST ∪ {sys, json, builtins}` and not in
`{os, sys, subprocess, socket}` — rejects it. -/
theorem claim_c2_counterexample :
    audit_hook_import [] [] "sys" = .proceed ∧
    specImportAdmissible [] "sys" = false := ⟨rfl, rfl⟩

/-- C2 (amended): for every `import` event, the module is admitted iff
its root name is in `{sys, json, builtins, org, ctypes} ∪ ALLOWED_MODULES
∪ EXTRA_ALLOWED` and not in the generated `BLACKLIST` (which contains
`os`, `subprocess`, `socket`, `threading`, `multiprocessing`, `signal`,
`shutil`, `sysconfig`, `requests`, `urllib`, `inspect`, `compileall`, but
not `sys`); every violation prints a `SECURITY_VIOLATION` JSON diagnostic
and exits with code 42. -/
theorem claim_c2_amended (rawModules extraAllowed : List String)
    (importName : String) :
    audit_hook_import rawModules extraAllowed importName =
      (if ((subjectWhitelist rawModules extraAllowed).contains
            (rootName importName)
          && !(BLACKLIST.contains (rootName importName))) = true
       then .proceed
       else .violation (mkDiag "SECURITY_VIOLATION"
         ("Импорт модуля '" ++ rootName importName ++ "' запрещён") "")) := by
  unfold audit_hook_import
  by_cases h1 : rootName importName ∈ subjectWhitelist rawModules extraAllowed <;>
    by_cases h2 : rootName importName ∈ BLACKLIST <;>
      simp [h1, h2]

/-- C3 (counterexample): the driver generator interpolates the expected
value with Python `str`, not with JSON encoding: on the boolean `true`
the two differ (`True` vs `true`), refuting "every non-code field is
JSON-encoded before interpolation". -/
theorem claim_c3_counterexample :
    interp_expected (.bool true) = 'T' :: 'r' :: 'u' :: 'e' :: [] ∧
    spec_interp_expected (.bool true) = 't' :: 'r' :: 'u' :: 'e' :: [] ∧
    interp_expected (.bool true) ≠ spec_interp_expected (.bool true) :=
  ⟨rfl, rfl, by decide⟩

/-- C3 (amended): for at least one JSON-encodable argument (with zero
arguments the generated call `self._run_test_case(, …)` is a Python
syntax error, which this value-level model does not represent), with
canonical values over printable-ASCII strings, a subject that returns its
argument list verbatim yields a clean case state and a passing verdict:
the arguments survive `repr(json.dumps(·))` interpolation and
`json.loads`, the result survives `json.dumps`/`json.loads`, and the
`str()`-interpolated expected literal evaluates back to the expected
value, so `assertEqual` succeeds. -/
theorem claim_c3_amended (ps : List JVal) (hne : ps ≠ [])
    (hcan : canonV (.arr (JArr.ofList ps)) = true)
    (hok : strOkV (.arr (JArr.ofList ps)) = true) :
    run_generated_case ps (.arr (JArr.ofList ps)) true
      (some fun args => .ret (.arr (JArr.ofList args))) =
        .ran ⟨none, none, none⟩ ∧
    case_passes (run_generated_case ps (.arr (JArr.ofList ps)) true
      (some fun args => .ret (.arr (JArr.ofList args)))) = true := by
  have h := run_generated_case_echo ps hcan hok
  exact ⟨h, by rw [h]; rfl⟩

/-- C3 (witness): the round trip at `[2, "ab"]`. -/
theorem claim_c3_amended_witness :
    [JVal.int 2, JVal.str "ab"] ≠ [] ∧
    case_passes (run_generated_case [.int 2, .str "ab"]
      (.arr (JArr.ofList [.int 2, .str "ab"])) true
      (some fun args => .ret (.arr (JArr.ofList args)))) = true :=
  ⟨by simp,
   (claim_c3_amended [.int 2, .str "ab"] (by simp) rfl rfl).2⟩

/-- C4 (counterexample): a submission that provisions a container and in
which every step succeeds, run with `cleanup=False` (a real parameter of
`run`, used by `test.py` and offered commented-out in the HTTP layer),
leaves its container behind — refuting "no container remains after run()
returns, irrespective of outcome". -/
theorem claim_c4_counterexample :
    ¬ (∀ (cleanup : Bool) (env : RunEnv),
        (run_lifecycle cleanup env).provisioned = true →
        (run_lifecycle cleanup env).containerRemains = false) := by
  intro h
  have h2 := h false envAllOk rfl
  rw [show (run_lifecycle false envAllOk).containerRemains = true from rfl]
    at h2
  exact Bool.noConfusion h2

/-- C4 (amended): with `cleanup=True` (the default, and what the HTTP
layer uses), no container and no scratch directory remains after `run`
returns, whatever combination of steps fails; the scratch directory is
removed on every exit path even when `cleanup=False`. -/
theorem claim_c4_amended (env : RunEnv) :
    (run_lifecycle true env).tempDirRemains = false ∧
    (run_lifecycle true env).containerRemains = false ∧
    ∀ cleanup : Bool, (run_lifecycle cleanup env).tempDirRemains = false := by
  refine ⟨?_, ?_, ?_⟩
  · unfold run_lifecycle
    split
    · rfl
    · split
      · rfl
      · rfl
  · unfold run_lifecycle
    split
    · rfl
    · split
      · rfl
      · rfl
  · intro cleanup
    unfold run_lifecycle
    split
    · rfl
    · split
      · rfl
      · rfl

/-- C5 (counterexample): for a suite whose first case fails and whose
second passes, the driver emits the successful verdict first, so the
verdict list is not in case definition order. -/
theorem claim_c5_counterexample :
    ¬ (∀ (cases : List SuiteCase), (driver_output cases).map verdictId =
        cases.map (fun c => some (JVal.str c.tid))) := by
  intro h
  have h2 := h [⟨"1", .ran ⟨some (.str "ASSERTION_ERROR"),
                  some (.str "failmsg"), none⟩⟩,
                ⟨"2", .ran ⟨none, none, none⟩⟩]
  rw [show (driver_output [⟨"1", .ran ⟨some (.str "ASSERTION_ERROR"),
        some (.str "failmsg"), none⟩⟩,
      ⟨"2", .ran ⟨none, none, none⟩⟩]).map verdictId =
      [some (JVal.str "2"), some (JVal.str "1")] from rfl] at h2
  injection h2 with h3 h4
  injection h3 with h5
  injection h5 with h6
  exact absurd h6 (by decide)

/-- C5 (amended): the driver runs the loaded test methods sorted by
method name (`test_case_<id>` under Python string comparison) and emits
all successful verdicts first, in run order, followed by the fail
verdicts of `result.failures + result.errors`: all `unittest` failures
(methods that ran and ended in `self.fail`) in run order, then all
`unittest` errors (generated calls that raised before the method body
ran) in run order — not in case definition order. -/
theorem claim_c5_amended (cases : List SuiteCase) :
    driver_output cases =
      ((sortByMethodName cases).filter
        (fun c => case_passes c.result)).map success_verdict ++
      (((sortByMethodName cases).filter
        (fun c => !case_passes c.result && !is_unittest_error c)).map
          fail_verdict ++
       ((sortByMethodName cases).filter
        (fun c => is_unittest_error c)).map fail_verdict) :=
  driver_output_spec cases

/-- C6 (code bug): on the pre-baked path the whitelist the subject
harness enforces is `base ∪ manifest ∪ manifest` — `run` passes the image
manifest, not the requested libraries, as `EXTRA_ALLOWED` — so a
requested library (`numpy`) absent from the manifest (`["math"]`) is not
importable, although the live-generation path does union it in. -/
theorem claim_c6_code_bug_eval :
    run_whitelist true ["math"] [] (fun _ => true) ["numpy"] =
      ["sys", "json", "builtins", "org", "ctypes", "math", "math"] ∧
    "numpy" ∉ run_whitelist true ["math"] [] (fun _ => true) ["numpy"] ∧
    "numpy" ∈ run_whitelist false ["math"] [] (fun r => r == "numpy")
      ["numpy"] := by
  refine ⟨rfl, by decide, by decide⟩

/-- C7 (counterexample): a child that exits 1 with a parseable
`RUNTIME_ERROR` JSON diagnostic on stderr is classified `NON_ZERO_EXIT`
by the driver (the stderr diagnostic is consulted only at exit 0), while
the claim says the diagnostic type would be carried. -/
theorem claim_c7_counterexample :
    (classify_child (childRuntimeError "boom") .null).errType =
      some (.str "NON_ZERO_EXIT") ∧
    spec_classify_nonzero 1 (childRuntimeError "boom").stderrText =
      .str "RUNTIME_ERROR" ∧
    ("NON_ZERO_EXIT" : String) ≠ "RUNTIME_ERROR" := ⟨rfl, rfl, by decide⟩

/-- C7 (amended): on a non-zero child exit the driver classifies by exit
code alone: 42 is `SECURITY_VIOLATION` (a parseable first JSON stderr
line then supplies the message and the traceback, never the type), 2 is
`MAIN_NOT_FOUND`, and every other non-zero code is `NON_ZERO_EXIT`.  The
full diagnostic (`type`, `message`, `traceback`) is taken from the first
JSON line of stderr only when the child exits 0, where it is parsed
unconditionally — whatever stdout holds — and persists into the verdict
unless a stdout JSON-decode failure or an assertion failure overwrites
it. -/
theorem claim_c7_amended (ch : ChildResult) (e : JVal)
    (h : ch.exitCode ≠ 0) :
    (classify_child ch e).errType =
      some (.str (if ch.exitCode = 42 then "SECURITY_VIOLATION"
        else if ch.exitCode = 2 then "MAIN_NOT_FOUND"
        else "NON_ZERO_EXIT")) :=
  classify_child_nonzero ch e h

/-- C7 (witness): the classification at exit code 1. -/
theorem claim_c7_amended_witness :
    ((childRuntimeError "x").exitCode ≠ 0) ∧
    (classify_child (childRuntimeError "x") .null).errType =
      some (.str "NON_ZERO_EXIT") := by
  refine ⟨by decide, ?_⟩
  have h := claim_c7_amended (childRuntimeError "x") .null (by decide)
  simpa using h

/-- C8 (counterexample): a source with two top-level definitions both
named `f` is admitted by `_validate_function` (the first match decides),
while the claim requires exactly one matching definition. -/
theorem claim_c8_counterexample :
    validate_function [.funcDef "f" ["x"], .funcDef "f" []] "f" ["x"] =
      .ok () ∧
    spec_validate_ok [.funcDef "f" ["x"], .funcDef "f" []] "f" ["x"] =
      false := ⟨rfl, rfl⟩

/-- C8 (amended): validation succeeds iff some top-level function
definition is named `function_name` and the first such definition's
positional parameters contain every required parameter; no match raises
`FunctionMissing`, and a first match with missing parameters raises
`ParamMissing` naming them in required order — even if a later definition
with the same name has all parameters. -/
theorem claim_c8_amended (tree : List PyDecl) (fn : String)
    (req : List String) :
    validate_function tree fn req =
      (match first_matching_def tree fn with
       | none => .error (.functionMissing fn)
       | some args =>
         if (req.filter (fun p => !(args.contains p))).isEmpty then .ok ()
         else .error (.paramMissing
           (req.filter (fun p => !(args.contains p))))) := by
  induction tree with
  | nil => rfl
  | cons d rest ih =>
    cases d with
    | funcDef name args =>
      by_cases h : name = fn
      · subst h
        unfold validate_function first_matching_def
        simp
      · unfold validate_function first_matching_def
        simp [h, ih]
    | other =>
      unfold validate_function first_matching_def
      exact ih

/-- C9 (counterexample): for a case whose id is `a_b`, the emitted
verdict id is `b` (`test_method_name.split('_')[-1]`), not `a_b`. -/
theorem claim_c9_counterexample :
    verdictId (success_verdict ⟨"a_b", .ran ⟨none, none, none⟩⟩) =
      some (.str "b") ∧ ("b" : String) ≠ "a_b" := ⟨rfl, by decide⟩

/-- C9 (amended): the verdict id is the last underscore-separated token
of the generated method name, hence equals the case id exactly when the
id contains no underscore; positional default ids are all digits and so
are never mangled. -/
theorem claim_c9_amended (tid : String) (r : CaseResult)
    (h : '_' ∉ tid.data) :
    verdictId (success_verdict ⟨tid, r⟩) = some (.str tid) ∧
    verdictId (fail_verdict ⟨tid, r⟩) = some (.str tid) ∧
    ∀ idx, '_' ∉ (test_id idx none).data := by
  refine ⟨?_, ?_, default_id_no_underscore⟩
  · show some (JVal.str (verdict_id_of_method (method_name tid))) = _
    rw [verdict_id_no_underscore h]
  · show some (JVal.str (verdict_id_of_method (method_name tid))) = _
    rw [verdict_id_no_underscore h]

/-- C9 (witness): an underscore-free id is preserved. -/
theorem claim_c9_amended_witness :
    verdictId (success_verdict ⟨"a", .notRan⟩) = some (.str "a") ∧
    verdictId (fail_verdict ⟨"a", .notRan⟩) = some (.str "a") :=
  ⟨(claim_c9_amended "a" .notRan (by decide)).1,
   (claim_c9_amended "a" .notRan (by decide)).2.1⟩

/-- C10 (confirmed): if the submitted function returns `None`, the
subject harness prints a `RUNTIME_ERROR` JSON diagnostic on stderr and
exits 1 (this holds for every argument vector: a bad argument also takes
the `RUNTIME_ERROR`/exit-1 path), and consequently no test case whose
correct result is `null` can ever produce a success verdict. -/
theorem claim_c10 (argv : List (List Char)) (params : List JVal)
    (expected : JVal) :
    (∃ m, subject_main true argv (some fun _ => PyFunRes.ret .null) =
      ⟨[], jsonDumpsV (mkDiag "RUNTIME_ERROR" m tracebackText), 1⟩) ∧
    (subject_main true argv
      (some fun _ => PyFunRes.ret .null)).exitCode = 1 ∧
    case_passes (run_generated_case params expected true
      (some fun _ => PyFunRes.ret .null)) = false := by
  have hsub : ∃ m, subject_main true argv
      (some fun _ => PyFunRes.ret .null) = childRuntimeError m := by
    unfold subject_main
    cases hD : argv.mapM jsonLoads with
    | none => exact ⟨_, rfl⟩
    | some args => exact ⟨_, rfl⟩
  obtain ⟨m, hm⟩ := hsub
  refine ⟨⟨m, hm⟩, by rw [hm]; rfl, run_null_fails params expected⟩


end DockerRunner
